import Mathlib

/-!
Verification of the document ingestion / OCR / translation pipeline of the
ocr-legal-document-processor repository.

The Python sources are shallowly embedded:
* `DocProc`    — `backend/utils/document_processor.py` (type detection, the
  extractor registry, `process_document`, `process_multiple_documents`).
* `Trans`      — `backend/utils/ocr_processor.py` translation chain
  (`auto_translate_to_english` and the `translate_with_*` services) and
  `split_text_for_translation`.
* `ImgOcr`     — `ImageExtractor.extract` (EasyOCR pass + Tesseract fallback).
* `TextDec`    — the plain-text extractor's encoding-fallback loop.
* `Difflib`    — CPython's `difflib.SequenceMatcher` as invoked by
  `compare_documents_with_libraries` in `backend/app.py` (with `isjunk=None`
  and the default `autojunk=True`, exactly as the call site constructs it).

External collaborators (the filesystem, OCR engines, translation HTTP
services) are modelled as explicit oracle environments; everything the
repository itself computes is translated directly from the Python source.
-/

namespace DocProc

/-- `DocumentMetadata` dataclass of `document_processor.py`.  Timestamps are
kept as opaque optional strings; none of the verified properties inspect
them. -/
structure DocumentMetadata where
  filename : String
  file_type : String
  mime_type : String
  file_size : Nat
  language : Option String := none
  page_count : Option Nat := none
  creation_date : Option String := none
  modification_date : Option String := none
  author : Option String := none
  title : Option String := none
  subject : Option String := none
  word_count : Option Nat := none
  character_count : Option Nat := none
deriving DecidableEq, Repr

/-- A table record as produced by the extractors (headers plus rows of
cells). -/
structure Table where
  headers : List String := []
  rows : List (List String) := []
deriving DecidableEq, Repr

/-- `ExtractedContent` dataclass.  As in the source, `tables`, `images` and
`errors` are `None` by default (the extractors pass `errors if errors else
None`). -/
structure ExtractedContent where
  text : String
  metadata : DocumentMetadata
  tables : Option (List Table) := none
  images : Option (List String) := none
  raw_content : Option String := none
  ocr_confidence : Option ℚ := none
  processing_method : Option String := none
  errors : Option (List String) := none
deriving DecidableEq, Repr

/-- `DocumentTypeDetector.SUPPORTED_EXTENSIONS` — the extension → MIME table,
verbatim from the source. -/
def SUPPORTED_EXTENSIONS : List (String × String) :=
  [ (".pdf", "application/pdf"),
    (".doc", "application/msword"),
    (".docx", "application/vnd.openxmlformats-officedocument.wordprocessingml.document"),
    (".txt", "text/plain"),
    (".rtf", "application/rtf"),
    (".ppt", "application/vnd.ms-powerpoint"),
    (".pptx", "application/vnd.openxmlformats-officedocument.presentationml.presentation"),
    (".xls", "application/vnd.ms-excel"),
    (".xlsx", "application/vnd.openxmlformats-officedocument.spreadsheetml.sheet"),
    (".csv", "text/csv"),
    (".jpg", "image/jpeg"),
    (".jpeg", "image/jpeg"),
    (".png", "image/png"),
    (".tiff", "image/tiff"),
    (".tif", "image/tiff"),
    (".bmp", "image/bmp"),
    (".gif", "image/gif"),
    (".html", "text/html"),
    (".htm", "text/html"),
    (".md", "text/markdown"),
    (".json", "application/json"),
    (".xml", "application/xml") ]

/-- ASCII lower-casing of one character (`str.lower` restricted to the ASCII
range, which covers every extension in the table). -/
def charLower (c : Char) : Char :=
  if 'A' ≤ c ∧ c ≤ 'Z' then Char.ofNat (c.toNat + 32) else c

/-- `str.lower()` character by character. -/
def strLower (s : String) : String :=
  String.mk (s.data.map charLower)

/-- Final path component (`os.path.basename` / `Path(...).name`): the
characters after the last `'/'`. -/
def basename (p : String) : String :=
  String.mk ((p.data.reverse.takeWhile (· ≠ '/')).reverse)

/-- Index of the last `'.'` in a character list, if any. -/
def lastDotIdx (cs : List Char) : Option Nat :=
  match cs.reverse.findIdx? (· = '.') with
  | none => none
  | some k => some (cs.length - 1 - k)

/-- `Path(filepath).suffix`: the extension of the final component.  CPython
returns `name[i:]` for the last dot index `i` when `0 < i < len(name) - 1`,
else the empty string. -/
def fileSuffix (p : String) : String :=
  let name := (basename p).toList
  match lastDotIdx name with
  | none => ""
  | some i => if 0 < i ∧ i < name.length - 1 then String.mk (name.drop i) else ""

/-- `DocumentTypeDetector.detect_file_type`: extension-based lookup first;
the `python-magic` / `mimetypes` fallbacks only affect the MIME string for
unknown extensions and are modelled by the final `application/octet-stream`
default. -/
def detect_file_type (p : String) : String × String :=
  let ext := strLower (fileSuffix p)
  match (SUPPORTED_EXTENSIONS.filter (fun kv => kv.1 = ext)).head? with
  | some kv => (ext, kv.2)
  | none => (ext, "application/octet-stream")

/-- `DocumentTypeDetector.is_supported`. -/
def is_supported (p : String) : Bool :=
  SUPPORTED_EXTENSIONS.any (fun kv => kv.1 = (detect_file_type p).1)

/-- `supported_extensions` of the eleven extractor classes, in the order
`DocumentProcessor.__init__` instantiates them (PDF, DOCX, DOC, PPTX, Excel,
Text, Image, HTML, Markdown, JSON, XML). -/
def extractorExtensionLists : List (String × List String) :=
  [ ("pdf", [".pdf"]),
    ("docx", [".docx"]),
    ("doc", [".doc"]),
    ("pptx", [".pptx"]),
    ("excel", [".xlsx", ".xls", ".csv"]),
    ("text", [".txt", ".rtf"]),
    ("image_ocr", [".jpg", ".jpeg", ".png", ".tiff", ".tif", ".bmp", ".gif"]),
    ("html", [".html", ".htm"]),
    ("markdown", [".md", ".markdown"]),
    ("json", [".json"]),
    ("xml", [".xml"]) ]

/-- Lexicographic code-point comparison on character lists (Python string
order). -/
def charListLeb : List Char → List Char → Bool
  | [], _ => true
  | _ :: _, [] => false
  | a :: as, b :: bs =>
    if a.toNat < b.toNat then true
    else if b.toNat < a.toNat then false
    else charListLeb as bs

/-- `a <= b` for strings, by code points. -/
def strLeb (a b : String) : Bool := charListLeb a.data b.data

/-- Insertion into a sorted list of strings (ascending code-point order). -/
def insertSorted (s : String) : List String → List String
  | [] => [s]
  | t :: ts => if strLeb s t then s :: t :: ts else t :: insertSorted s ts

/-- Lexicographic string sort, modelling Python's `sorted`. -/
def sortStrings : List String → List String
  | [] => []
  | s :: ss => insertSorted s (sortStrings ss)

/-- `DocumentProcessor.get_supported_formats`:
`sorted(list(set(concat of extractor extension lists)))`. -/
def get_supported_formats : List String :=
  sortStrings ((extractorExtensionLists.map Prod.snd).flatten.eraseDups)

/-- The `extractor_map` lookup: which extractor (by name) owns an extension.
The source builds a dict extension → extractor; the extension lists are
pairwise disjoint, so first-match lookup is the dict lookup. -/
def extractorFor (ext : String) : Option String :=
  match extractorExtensionLists.filter (fun e => e.2.contains ext) with
  | [] => none
  | e :: _ => some e.1

/-- The exceptions `process_document` can raise, plus the propagated
extractor-level exception. -/
inductive ProcErr where
  | notFound (msg : String)
  | unsupported (msg : String)
  | noExtractor (msg : String)
  | extractorRaised (msg : String)
deriving DecidableEq, Repr

/-- `str(e)` of the corresponding Python exception. -/
def ProcErr.message : ProcErr → String
  | .notFound m => m
  | .unsupported m => m
  | .noExtractor m => m
  | .extractorRaised m => m

/-- Oracle environment: the filesystem plus the behaviour of the dispatched
extractor's `extract(file_path, filename)` call (which either returns an
`ExtractedContent` or raises). -/
structure FsEnv where
  fileExists : String → Bool
  extract : String → String → Except String ExtractedContent

/-- Comma-space join (`', '.join(supported)`). -/
def joinCommaSpace : List String → String
  | [] => ""
  | [s] => s
  | s :: rest => s ++ ", " ++ joinCommaSpace rest

/-- `DocumentProcessor.process_document` (called with `filename=None`, so the
basename is used).  Missing file and unsupported type raise before dispatch;
a missing registry entry raises `ValueError`; an exception raised by the
dispatched extractor is logged and re-raised. -/
def process_document (env : FsEnv) (path : String) : Except ProcErr ExtractedContent :=
  let filename := basename path
  if env.fileExists path = false then
    .error (.notFound ("File not found: " ++ path))
  else if is_supported path = false then
    let ext := strLower (fileSuffix path)
    .error (.unsupported ("Unsupported file type '" ++ ext ++ "'. Supported formats: " ++
      joinCommaSpace get_supported_formats))
  else
    let ext := strLower (fileSuffix path)
    match extractorFor ext with
    | none => .error (.noExtractor ("No extractor found for file type: " ++ ext))
    | some _ =>
      match env.extract path filename with
      | .ok r => .ok r
      | .error m => .error (.extractorRaised m)

/-- The per-file error result `process_multiple_documents` builds when
`process_document` raises. -/
def errorContent (path : String) (msg : String) : ExtractedContent :=
  { text := "Error processing file: " ++ msg
    metadata := { filename := basename path, file_type := "unknown",
                  mime_type := "unknown", file_size := 0 }
    errors := some [msg] }

/-- One iteration of the batch loop: try `process_document`, and on any
exception substitute the error result. -/
def processOne (env : FsEnv) (path : String) : ExtractedContent :=
  match process_document env path with
  | .ok r => r
  | .error e => errorContent path e.message

/-- `DocumentProcessor.process_multiple_documents`. -/
def process_multiple_documents (env : FsEnv) (paths : List String) : List ExtractedContent :=
  paths.map (processOne env)

end DocProc

namespace DocProc

/-- Prefix test on strings via the underlying character lists (used to state
the `Error:` marker properties). -/
def strStartsWith (s p : String) : Bool :=
  p.data.isPrefixOf s.data

/-- Fixed default used with `List.getD` in batch statements. -/
def dfltContent : ExtractedContent := errorContent "" ""

/-- The 26 file-type tags the spec's input contract lists. -/
def specTagList : List String :=
  [".pdf", ".doc", ".docx", ".txt", ".rtf", ".ppt", ".pptx", ".xls", ".xlsx",
   ".csv", ".jpg", ".jpeg", ".png", ".tiff", ".tif", ".bmp", ".gif", ".webp",
   ".html", ".htm", ".md", ".json", ".xml", ".odt", ".ods", ".odp"]

/-- The spec-listed tags that the source's extension table does not know. -/
def missingTags : List String := [".webp", ".odt", ".ods", ".odp"]

lemma strStartsWith_append_error (m : String) :
    strStartsWith ("Error processing file: " ++ m) "Error" = true := by
  have h1 : "Error".data <+: "Error processing file: ".data := by decide
  have h2 : "Error processing file: ".data <+:
      ("Error processing file: ".data ++ m.data) := List.prefix_append _ _
  simp only [strStartsWith, String.data_append, List.isPrefixOf_iff_prefix, decide_eq_true_eq]
  exact h1.trans h2

lemma strStartsWith_mono_colon (s : String) (h : strStartsWith s "Error:" = true) :
    strStartsWith s "Error" = true := by
  rw [strStartsWith, List.isPrefixOf_iff_prefix] at h ⊢
  exact (by decide : "Error".data <+: "Error:".data).trans h

/-- If `process_document` returns content, it is exactly what the dispatched
extractor returned for (path, basename path). -/
lemma process_document_ok (env : FsEnv) (path : String) (c : ExtractedContent)
    (h : process_document env path = .ok c) :
    env.extract path (basename path) = .ok c := by
  unfold process_document at h
  by_cases h1 : env.fileExists path = false
  · simp [h1] at h
  by_cases h2 : is_supported path = false
  · simp [h1, h2] at h
  cases hx : extractorFor (strLower (fileSuffix path)) with
  | none => simp [h1, h2, hx] at h
  | some name =>
    cases he : env.extract path (basename path) with
    | ok r => simp only [h1, h2, hx, he] at h ⊢; simp at h; rw [h]
    | error m => simp [h1, h2, hx, he] at h

lemma processMulti_getD (env : FsEnv) (paths : List String) (i : Nat)
    (h : i < paths.length) :
    (process_multiple_documents env paths).getD i dfltContent
      = processOne env (paths.getD i "") := by
  induction paths generalizing i with
  | nil => simp at h
  | cons p ps ih =>
    cases i with
    | zero => simp [process_multiple_documents]
    | succ n =>
      have hn : n < ps.length := by simpa using h
      simpa [process_multiple_documents, List.getD] using ih n hn

lemma processMulti_length (env : FsEnv) (paths : List String) :
    (process_multiple_documents env paths).length = paths.length := by
  simp [process_multiple_documents]

end DocProc

namespace DocProc

/-- Environment with an existing file whose dispatched extractor raises. -/
def envRaising : FsEnv :=
  { fileExists := fun _ => true, extract := fun _ _ => .error "boom" }

/-- Environment in which no file exists. -/
def envNoFile : FsEnv :=
  { fileExists := fun _ => false, extract := fun _ _ => .error "unused" }

/-- C2 counterexample: for an existing `.txt` file whose extractor raises,
`process_document` propagates the exception (an `Except.error`), never an
`ExtractedContent` with an `Error:` text. -/
theorem c2_registry_counterexample :
    process_document envRaising "contract.txt" = .error (.extractorRaised "boom") ∧
    ¬ ∃ c : ExtractedContent, process_document envRaising "contract.txt" = .ok c := by
  have h : process_document envRaising "contract.txt" = .error (.extractorRaised "boom") := by
    rfl
  refine ⟨h, ?_⟩
  rintro ⟨c, hc⟩
  rw [h] at hc
  exact Except.noConfusion hc

/-- C2 amended: `NotFound` and `UnsupportedFormat` are raised before dispatch
(independently of any extractor behaviour), a `.ppt`-style registry gap raises
before extraction as well, and an exception raised by the dispatched
extractor propagates out of `process_document` unwrapped — the `Error:`-text
wrapping lives inside the individual extractors and in the batch loop, not in
the registry-level `process_document`. -/
theorem c2_registry_raises :
    ∀ (env : FsEnv) (path : String),
    (env.fileExists path = false →
      process_document env path = .error (.notFound ("File not found: " ++ path))) ∧
    (env.fileExists path = true → is_supported path = false →
      process_document env path = .error (.unsupported
        ("Unsupported file type '" ++ strLower (fileSuffix path) ++
         "'. Supported formats: " ++ joinCommaSpace get_supported_formats))) ∧
    (∀ m name, env.fileExists path = true → is_supported path = true →
      extractorFor (strLower (fileSuffix path)) = some name →
      env.extract path (basename path) = .error m →
      process_document env path = .error (.extractorRaised m)) := by
  intro env path
  refine ⟨fun h1 => ?_, fun h1 h2 => ?_, fun m name h1 h2 hx he => ?_⟩
  · simp [process_document, h1]
  · simp [process_document, h1, h2]
  · simp [process_document, h1, h2, hx, he]

/-- Witness for `c2_registry_raises` at concrete inputs. -/
theorem c2_registry_raises_witness :
    process_document envRaising "contract.txt" = .error (.extractorRaised "boom") ∧
    process_document envNoFile "gone.txt" = .error (.notFound "File not found: gone.txt") :=
  ⟨(c2_registry_raises envRaising "contract.txt").2.2 "boom" "text"
      rfl (by decide) rfl rfl,
   (c2_registry_raises envNoFile "gone.txt").1 rfl⟩

/-- C4 counterexample: `.webp` is in the spec's input-contract list, yet a
`.webp` filename is not supported by the detector (the table also lacks
`.odt`, `.ods`, `.odp`). -/
theorem c4_counterexample :
    specTagList.contains ".webp" = true ∧ is_supported "scan.webp" = false := by
  decide

/-- C4 amended: of the spec's 26 tags, all but `.webp .odt .ods .odp` are
accepted by the supportedness predicate, and each of those accepted tags is
in the registry's supported-formats list except `.ppt`, which the detector
accepts but no extractor owns. -/
theorem c4_supported_tags :
    ((specTagList.filter (fun t => !(missingTags.contains t))).all
        (fun t => is_supported ("file" ++ t))) = true ∧
    ((specTagList.filter (fun t => !(missingTags.contains t))).all
        (fun t => (t == ".ppt") || get_supported_formats.contains t)) = true ∧
    get_supported_formats.contains ".ppt" = false ∧
    extractorFor ".ppt" = none ∧
    (missingTags.all (fun t => !(is_supported ("file" ++ t)))) = true := by
  decide

/-- C9: the batch call returns exactly one result per input path, in order;
position `i` always holds the outcome for input `i`, and (for extractors
that label content with the supplied filename, as all eleven do) the result's
metadata names the file at position `i` — also when some files fail. -/
theorem c9_batch_order (env : FsEnv) (paths : List String)
    (hwf : ∀ p c, env.extract p (basename p) = .ok c →
      c.metadata.filename = basename p) :
    (process_multiple_documents env paths).length = paths.length ∧
    ∀ i, i < paths.length →
      (process_multiple_documents env paths).getD i dfltContent
          = processOne env (paths.getD i "") ∧
      ((process_multiple_documents env paths).getD i dfltContent).metadata.filename
          = basename (paths.getD i "") := by
  refine ⟨processMulti_length env paths, fun i hi => ?_⟩
  refine ⟨processMulti_getD env paths i hi, ?_⟩
  rw [processMulti_getD env paths i hi]
  unfold processOne
  cases hpd : process_document env (paths.getD i "") with
  | ok c => exact hwf _ c (process_document_ok env _ c hpd)
  | error e => rfl

/-- Witness for `c9_batch_order`: a two-file batch, second file missing. -/
theorem c9_batch_order_witness :
    (process_multiple_documents envNoFile ["a.txt", "b.txt"]).length = 2 ∧
    ((process_multiple_documents envNoFile ["a.txt", "b.txt"]).getD 0
        dfltContent).metadata.filename = "a.txt" := by
  have h := c9_batch_order envNoFile ["a.txt", "b.txt"]
    (fun p c hc => by simp [envNoFile] at hc)
  exact ⟨h.1, ((h.2 0 (by decide)).2).trans (by decide)⟩

end DocProc

namespace DocProc

/-- C5 counterexample: a batch whose single file is missing.  The failing
result's text is `"Error processing file: ..."`, which does **not** carry the
`Error:` prefix the claim requires (its errors list is populated, though). -/
theorem c5_counterexample :
    (process_multiple_documents envNoFile ["missing.txt"]).map (fun r => r.text)
      = ["Error processing file: File not found: missing.txt"] ∧
    strStartsWith "Error processing file: File not found: missing.txt" "Error:" = false := by
  exact ⟨rfl, by decide⟩

/-- C5 amended: in a batch where every file except `k` extracts cleanly (text
without an `Error` marker) and file `k` fails — either inside its extractor
(`Error:`-prefixed text with populated errors) or by raising out of
`process_document` (missing/unsupported/corrupt-dispatch) — the batch returns
N results, the N−1 other texts carry no `Error` marker, result `k`'s text
starts with `Error` (the exact marker is `Error:` for extractor-internal
failures and `Error processing file:` for raised ones), result `k`'s errors
list is populated, and the batch call itself never raises (it is a total
function). -/
theorem c5_batch_isolation (env : FsEnv) (paths : List String) (k : Nat)
    (hk : k < paths.length)
    (hok : ∀ i, i < paths.length → i ≠ k →
      ∃ c, process_document env (paths.getD i "") = .ok c ∧
        strStartsWith c.text "Error" = false)
    (hfail : (∃ c, process_document env (paths.getD k "") = .ok c ∧
                strStartsWith c.text "Error:" = true ∧ c.errors ≠ none) ∨
             (∃ e, process_document env (paths.getD k "") = .error e)) :
    (process_multiple_documents env paths).length = paths.length ∧
    (∀ i, i < paths.length → i ≠ k →
      strStartsWith ((process_multiple_documents env paths).getD i dfltContent).text
        "Error" = false) ∧
    strStartsWith ((process_multiple_documents env paths).getD k dfltContent).text
      "Error" = true ∧
    ((process_multiple_documents env paths).getD k dfltContent).errors ≠ none := by
  refine ⟨processMulti_length env paths, ?_, ?_, ?_⟩
  · intro i hi hik
    rw [processMulti_getD env paths i hi]
    obtain ⟨c, hc, hmark⟩ := hok i hi hik
    simp only [processOne, hc]
    exact hmark
  · rw [processMulti_getD env paths k hk]
    rcases hfail with ⟨c, hc, hmark, _⟩ | ⟨e, he⟩
    · simp only [processOne, hc]
      exact strStartsWith_mono_colon _ hmark
    · simp only [processOne, he]
      exact strStartsWith_append_error _
  · rw [processMulti_getD env paths k hk]
    rcases hfail with ⟨c, hc, _, herr⟩ | ⟨e, he⟩
    · simp only [processOne, hc]
      exact herr
    · simp only [processOne, he, errorContent]
      simp

/-- Environment for the C5 witness: every file exists and extracts to a clean
page of text, except that `missing.txt` does not exist. -/
def envBatchMixed : FsEnv :=
  { fileExists := fun p => p != "missing.txt"
    extract := fun _ name =>
      .ok { text := "hello world"
            metadata := { filename := name, file_type := ".txt",
                          mime_type := "text/plain", file_size := 11 } } }

/-- Witness for `c5_batch_isolation`: three files, the middle one missing. -/
theorem c5_batch_isolation_witness :
    (process_multiple_documents envBatchMixed ["a.txt", "missing.txt", "b.pdf"]).length = 3 ∧
    strStartsWith ((process_multiple_documents envBatchMixed
      ["a.txt", "missing.txt", "b.pdf"]).getD 1 dfltContent).text "Error" = true := by
  have h := c5_batch_isolation envBatchMixed ["a.txt", "missing.txt", "b.pdf"] 1
    (by decide)
    (fun i hi hik => by
      have hi3 : i < 3 := by simpa using hi
      interval_cases i
      · exact ⟨_, rfl, by decide⟩
      · exact absurd rfl hik
      · exact ⟨_, rfl, by decide⟩)
    (Or.inr ⟨.notFound "File not found: missing.txt", rfl⟩)
  exact ⟨h.1, h.2.2.1⟩

end DocProc

namespace Trans

/-- Outcome of one `translate_with_*` service call: the call either raises or
returns a Python value.  The three real implementations wrap everything in
`try/except` and always return the dict `{'success': ..., 'translated_text':
...}`, but `auto_translate_to_english`'s own `try` blocks also handle a
raise, so both outcomes are modelled. -/
inductive SvcOutcome where
  | raises (msg : String)
  | returns (success : Bool) (translated_text : String)
deriving DecidableEq, Repr

/-- A Python value as far as `auto_translate_to_english` manipulates one:
either a plain string or a `{'success', 'translated_text'}` dict. -/
inductive PyVal where
  | str (s : String)
  | dict (success : Bool) (translated_text : String)
deriving DecidableEq, Repr

/-- Python truthiness of such a value: a string is truthy iff non-empty; a
(two-key) dict is always truthy. -/
def PyVal.truthy : PyVal → Bool
  | .str s => !s.isEmpty
  | .dict _ _ => true

/-- Python `translated != text` where `text` is a string: a dict never equals
a string; strings compare by content. -/
def PyVal.neqStr : PyVal → String → Bool
  | .str s, t => s != t
  | .dict _ _, _ => true

/-- One `try: translated = service(...); if translated and translated != text:
return translated; except: pass-through` block of `auto_translate_to_english`;
`next` is the rest of the function. -/
def tryService (outcome : SvcOutcome) (text : String) (next : Unit → PyVal) : PyVal :=
  match outcome with
  | .raises _ => next ()
  | .returns ok tr =>
    let translated := PyVal.dict ok tr
    if translated.truthy && translated.neqStr text then translated else next ()

/-- Oracle: the behaviour of the three services for the given text. -/
structure TransEnv where
  huggingface : SvcOutcome
  mymemory : SvcOutcome
  googletrans : SvcOutcome

/-- `auto_translate_to_english(text, source_language_code)`: Hugging Face,
then MyMemory, then googletrans, then `return text`. -/
def auto_translate_to_english (env : TransEnv) (text : String) : PyVal :=
  tryService env.huggingface text fun _ =>
    tryService env.mymemory text fun _ =>
      tryService env.googletrans text fun _ =>
        PyVal.str text

/-- All three services report failure the way the real implementations do:
`{'success': False, 'translated_text': text}` (never raising). -/
def envAllFail (text : String) : TransEnv :=
  { huggingface := .returns false text
    mymemory := .returns false text
    googletrans := .returns false text }

/-- Hypothetical environment in which every service raises. -/
def envAllRaise : TransEnv :=
  { huggingface := .raises "down"
    mymemory := .raises "down"
    googletrans := .raises "down" }

/-- Environment where Hugging Face fails softly but MyMemory would succeed. -/
def envHfFailMmOk (text : String) : TransEnv :=
  { huggingface := .returns false text
    mymemory := .returns true "translated!"
    googletrans := .returns false text }

/-- C1, evaluated at the failing input (the code-bug evidence).  With the
1-character text `"a"` and all three services failing the way the shipped
`translate_with_*` functions fail (returning `{'success': False,
'translated_text': text}` without raising):
(1) `auto_translate_to_english` returns Hugging Face's failure **dict** —
    success is `False` and the value is not the original string `"a"`, so the
    claimed soft-degradation result (`success=true`, original text) is not
    produced;
(2) the chain is short-circuited: even when MyMemory would succeed, the
    Hugging Face failure dict is still what is returned (a dict is truthy and
    `dict != str` is always `True`);
(3) only in the unreachable all-services-raise scenario does the function
    return the original text, which is what its own final
    `return text  # Return original if all translation methods fail`
    comment intends. -/
theorem c1_chain_bug :
    auto_translate_to_english (envAllFail "a") "a" = PyVal.dict false "a" ∧
    auto_translate_to_english (envAllFail "a") "a" ≠ PyVal.str "a" ∧
    auto_translate_to_english (envHfFailMmOk "a") "a" = PyVal.dict false "a" ∧
    auto_translate_to_english envAllRaise "a" = PyVal.str "a" := by
  refine ⟨rfl, ?_, rfl, rfl⟩
  intro h
  exact PyVal.noConfusion h

end Trans

namespace TextDec

/-- A byte of a file. -/
def Byte := Fin 256
deriving DecidableEq, Repr

/-- Is a byte a UTF-8 continuation byte (`0x80..0xBF`)? -/
def isCont (b : Byte) : Bool := 0x80 ≤ b.val && b.val ≤ 0xBF

/-- Strict UTF-8 decoding (CPython's `utf-8` codec): rejects stray
continuation bytes, overlong forms, surrogates and code points above
`U+10FFFF`.  Returns `none` exactly when CPython raises
`UnicodeDecodeError`. -/
def utf8Decode : List Byte → Option (List Char)
  | [] => some []
  | b :: rest =>
    if b.val < 0x80 then
      (utf8Decode rest).map (Char.ofNat b.val :: ·)
    else if b.val < 0xC2 then
      none
    else if b.val ≤ 0xDF then
      match rest with
      | c :: rest2 =>
        if isCont c then
          (utf8Decode rest2).map (Char.ofNat ((b.val - 0xC0) * 64 + (c.val - 0x80)) :: ·)
        else none
      | _ => none
    else if b.val ≤ 0xEF then
      match rest with
      | c :: d :: rest2 =>
        let lo2 := if b.val = 0xE0 then 0xA0 else 0x80
        let hi2 := if b.val = 0xED then 0x9F else 0xBF
        if lo2 ≤ c.val && c.val ≤ hi2 && isCont d then
          (utf8Decode rest2).map
            (Char.ofNat ((b.val - 0xE0) * 4096 + (c.val - 0x80) * 64 + (d.val - 0x80)) :: ·)
        else none
      | _ => none
    else if b.val ≤ 0xF4 then
      match rest with
      | c :: d :: e :: rest2 =>
        let lo2 := if b.val = 0xF0 then 0x90 else 0x80
        let hi2 := if b.val = 0xF4 then 0x8F else 0xBF
        if lo2 ≤ c.val && c.val ≤ hi2 && isCont d && isCont e then
          (utf8Decode rest2).map
            (Char.ofNat ((b.val - 0xF0) * 262144 + (c.val - 0x80) * 4096 +
              (d.val - 0x80) * 64 + (e.val - 0x80)) :: ·)
        else none
      | _ => none
    else none
termination_by l => l.length
decreasing_by all_goals simp_arith [*]

/-- `latin-1`: every byte maps to the code point of the same value; decoding
never fails. -/
def latin1Decode (bs : List Byte) : Option (List Char) :=
  some (bs.map (fun b => Char.ofNat b.val))

/-- The code point `cp1252` assigns to a byte, `none` for the five undefined
bytes `0x81 0x8D 0x8F 0x90 0x9D` (on which CPython raises). -/
def cp1252Char (b : Byte) : Option Char :=
  if b.val = 0x81 || b.val = 0x8D || b.val = 0x8F || b.val = 0x90 || b.val = 0x9D then
    none
  else if b.val < 0x80 || 0x9F < b.val then
    some (Char.ofNat b.val)
  else
    some (Char.ofNat (match b.val with
      | 0x80 => 0x20AC | 0x82 => 0x201A | 0x83 => 0x0192 | 0x84 => 0x201E
      | 0x85 => 0x2026 | 0x86 => 0x2020 | 0x87 => 0x2021 | 0x88 => 0x02C6
      | 0x89 => 0x2030 | 0x8A => 0x0160 | 0x8B => 0x2039 | 0x8C => 0x0152
      | 0x8E => 0x017D | 0x91 => 0x2018 | 0x92 => 0x2019 | 0x93 => 0x201C
      | 0x94 => 0x201D | 0x95 => 0x2022 | 0x96 => 0x2013 | 0x97 => 0x2014
      | 0x98 => 0x02DC | 0x99 => 0x2122 | 0x9A => 0x0161 | 0x9B => 0x203A
      | 0x9C => 0x0153 | 0x9E => 0x017E | 0x9F => 0x0178 | _ => 0))

/-- `cp1252` decoding of a whole byte string. -/
def cp1252Decode (bs : List Byte) : Option (List Char) :=
  bs.mapM cp1252Char

/-- `iso-8859-1` is the same total byte → code point map as `latin-1`. -/
def iso88591Decode (bs : List Byte) : Option (List Char) :=
  latin1Decode bs

/-- The ordered encoding list of `TextExtractor.extract`:
`['utf-8', 'latin-1', 'cp1252', 'iso-8859-1']`. -/
def textEncodings : List (List Byte → Option (List Char)) :=
  [utf8Decode, latin1Decode, cp1252Decode, iso88591Decode]

/-- The `for encoding in encodings: try ... break / except ... continue`
loop: the first successful decode wins. -/
def tryEncodings : List (List Byte → Option (List Char)) → List Byte → Option (List Char)
  | [], _ => none
  | d :: ds, bs =>
    match d bs with
    | some cs => some cs
    | none => tryEncodings ds bs

/-- The text the plain-text branch of `TextExtractor.extract` produces for
the raw bytes `bs`: the first successful decode, or the sentinel of the
`for/else` branch. -/
def textExtractText (bs : List Byte) : String :=
  match tryEncodings textEncodings bs with
  | some cs => String.mk cs
  | none => "Error: Unable to decode text file"

/-- C10: the all-encodings-failed branch is unreachable — `latin-1` (second
in the list) decodes every byte sequence, so the encoding loop always
succeeds and the loop's `else`-branch sentinel is never produced; the
extractor's text is always a decode of the file's bytes. -/
theorem c10_latin1_total :
    ∀ bs : List Byte,
      (latin1Decode bs).isSome = true ∧
      (tryEncodings textEncodings bs).isSome = true ∧
      textExtractText bs = String.mk ((tryEncodings textEncodings bs).getD []) := by
  intro bs
  refine ⟨rfl, ?_, ?_⟩
  · cases h : utf8Decode bs with
    | some cs => simp [tryEncodings, textEncodings, h]
    | none => simp [tryEncodings, textEncodings, h, latin1Decode]
  · cases h : utf8Decode bs with
    | some cs => simp [textExtractText, tryEncodings, textEncodings, h]
    | none => simp [textExtractText, tryEncodings, textEncodings, h, latin1Decode]

end TextDec

namespace PyStr

/-- ASCII whitespace, the `\s` / `str.strip` class for the texts involved. -/
def isPySpace (c : Char) : Bool :=
  c = ' ' || c = '\t' || c = '\n' || c = '\r' || c = '\x0b' || c = '\x0c'

/-- `str.strip()`: drop whitespace from both ends. -/
def pyStrip (s : String) : String :=
  String.mk (((s.data.dropWhile isPySpace).reverse.dropWhile isPySpace).reverse)

/-- `' '.join` on strings. -/
def joinSpace : List String → String
  | [] => ""
  | [s] => s
  | s :: rest => s ++ " " ++ joinSpace rest

/-- Arithmetic mean of a list of rationals (`sum(xs) / len(xs)`). -/
def meanQ (l : List ℚ) : ℚ := l.sum / l.length

/-- Arithmetic mean of a list of integers, as the exact rational Python's
float division computes for these magnitudes. -/
def meanZ (l : List Int) : ℚ := meanQ (l.map (fun c : ℤ => (c : ℚ)))

lemma meanQ_nonneg (l : List ℚ) (h : ∀ a ∈ l, 0 ≤ a) : 0 ≤ meanQ l := by
  unfold meanQ
  have hs : 0 ≤ l.sum := List.sum_nonneg h
  positivity

lemma meanQ_le (l : List ℚ) (M : ℚ) (hl : l ≠ []) (h : ∀ a ∈ l, a ≤ M) :
    meanQ l ≤ M := by
  have hlen : 0 < (l.length : ℚ) := by
    have : 0 < l.length := List.length_pos.mpr hl
    exact_mod_cast this
  unfold meanQ
  rw [div_le_iff₀ hlen]
  calc l.sum ≤ l.length • M := List.sum_le_card_nsmul l M h
    _ = M * l.length := by rw [nsmul_eq_mul]; ring

end PyStr

namespace ImgOcr

open PyStr

/-- Oracle for `ImageExtractor.extract`'s collaborators:
`imageOpen` is the `Image.open` + EXIF probe (outer `try`),
`readtext` the EasyOCR reader, `imageToData`/`imageToString` the two
pytesseract calls (deterministic per image, so a repeated call returns the
same outcome). -/
structure OcrEnv where
  imageOpen : Except String Unit
  easyAvailable : Bool
  readtext : Except String (List (String × ℚ))
  imageToData : Except String (List Int)
  imageToString : Except String String

/-- The fields of the returned `ExtractedContent` that the OCR logic
computes. -/
structure OcrOutcome where
  text : String
  ocr_confidence : ℚ
  processing_method : String
  errors : List String
deriving DecidableEq, Repr

/-- The EasyOCR pass (the first inner `try` of `ImageExtractor.extract`):
keeps detections with confidence `> 0.3`, space-joins their texts, and sets
the confidence to the mean of the kept confidences (`0` when none). -/
def easyPass (env : OcrEnv) : String × ℚ × String × List String :=
  if env.easyAvailable then
    match env.readtext with
    | .ok results =>
      let kept := results.filter (fun r => 3/10 < r.2)
      let confs := kept.map Prod.snd
      (joinSpace (kept.map Prod.fst),
       if confs.length = 0 then 0 else meanQ confs, "easyocr", [])
    | .error m => ("", 0, "tesseract_ocr", ["EasyOCR failed: " ++ m])
  else ("", 0, "tesseract_ocr", [])

/-- `ImageExtractor.extract`.  The Tesseract fallback runs when the EasyOCR
text is empty or strips to fewer than 10 characters; inside it,
`image_to_data` feeding a mean of the positive per-token confidences, with a
plain `image_to_string` at fixed confidence `50.0` when `image_to_data`
raises, and the outer `except` turning a raising `image_to_string` into
`Error:` text while keeping the earlier confidence/method.  Finally a blank
text is replaced by the no-text warning. -/
def imageExtract (env : OcrEnv) : OcrOutcome :=
  match env.imageOpen with
  | .error m =>
    { text := "Error: Could not process image. " ++ m, ocr_confidence := 0,
      processing_method := "tesseract_ocr", errors := ["Image processing failed: " ++ m] }
  | .ok _ =>
    let ep := easyPass env
    let fb :=
      if ep.1 = "" ∨ (pyStrip ep.1).length < 10 then
        match env.imageToData, env.imageToString with
        | .ok confs, .ok t =>
          let pos := confs.filter (fun c => 0 < c)
          (t, if pos.length = 0 then 0 else meanZ pos, "tesseract_ocr", ep.2.2.2)
        | .error _, .ok t => (t, 50, "tesseract_ocr", ep.2.2.2)
        | .ok _, .error m =>
          ("Error: Could not extract text from image. " ++ m, ep.2.1, ep.2.2.1,
           ep.2.2.2 ++ ["Tesseract OCR failed: " ++ m])
        | .error _, .error m =>
          ("Error: Could not extract text from image. " ++ m, ep.2.1, ep.2.2.1,
           ep.2.2.2 ++ ["Tesseract OCR failed: " ++ m])
      else ep
    let finalText :=
      if (pyStrip fb.1).length = 0 then
        "Warning: No text detected in image. The image may not contain readable text."
      else fb.1
    { text := finalText, ocr_confidence := fb.2.1,
      processing_method := fb.2.2.1, errors := fb.2.2.2 }

/-- The easy-pass confidence is within `[0, 100]` whenever EasyOCR's
per-detection confidences are within `[0, 1]`. -/
lemma easyPass_conf_range (env : OcrEnv)
    (hEasy : ∀ results, env.readtext = .ok results → ∀ r ∈ results, 0 ≤ r.2 ∧ r.2 ≤ 1) :
    0 ≤ (easyPass env).2.1 ∧ (easyPass env).2.1 ≤ 100 := by
  unfold easyPass
  cases hav : env.easyAvailable with
  | false => simp
  | true =>
    cases hrt : env.readtext with
    | error m => simp
    | ok results =>
      dsimp only
      by_cases hk : ((results.filter (fun r => 3/10 < r.2)).map Prod.snd).length = 0
      · rw [if_pos hk]
        norm_num
      · have hne : (results.filter (fun r => 3/10 < r.2)).map Prod.snd ≠ [] := by
          intro h; rw [h] at hk; exact hk rfl
        have hmem : ∀ a ∈ (results.filter (fun r => 3/10 < r.2)).map Prod.snd,
            0 ≤ a ∧ a ≤ 1 := by
          intro a ha
          obtain ⟨r, hr, hra⟩ := List.mem_map.mp ha
          have hrres : r ∈ results := List.mem_of_mem_filter hr
          exact hra ▸ hEasy results hrt r hrres
        have h0 : 0 ≤ meanQ ((results.filter (fun r => 3/10 < r.2)).map Prod.snd) :=
          meanQ_nonneg _ (fun a ha => (hmem a ha).1)
        have h1 : meanQ ((results.filter (fun r => 3/10 < r.2)).map Prod.snd) ≤ 1 :=
          meanQ_le _ 1 hne (fun a ha => (hmem a ha).2)
        rw [if_neg hk]
        exact ⟨h0, h1.trans (by norm_num)⟩

end ImgOcr

namespace ImgOcr

open PyStr

/-- The no-text warning string of `ImageExtractor.extract`. -/
def noTextWarning : String :=
  "Warning: No text detected in image. The image may not contain readable text."

/-- C6: with the collaborator interfaces in their documented ranges (EasyOCR
per-detection confidence in `[0,1]`, pytesseract per-token confidence at most
100), the returned `ocr_confidence` always lies in `[0, 100]`; and an image
in which no text is detected (all OCR succeeds but the text strips to empty)
yields the warning text — a non-exceptional terminal state (`imageExtract` is
a total function), distinct from the `Error:`-texts of engine failures. -/
theorem c6_confidence_range_and_warning (env : OcrEnv)
    (hEasy : ∀ results, env.readtext = .ok results → ∀ r ∈ results, 0 ≤ r.2 ∧ r.2 ≤ 1)
    (hTess : ∀ confs, env.imageToData = .ok confs → ∀ c ∈ confs, c ≤ 100) :
    (0 ≤ (imageExtract env).ocr_confidence ∧ (imageExtract env).ocr_confidence ≤ 100) ∧
    (∀ t, env.imageOpen = .ok () → (easyPass env).1 = "" →
      env.imageToString = .ok t → pyStrip t = "" →
      (imageExtract env).text = noTextWarning) := by
  have hep := easyPass_conf_range env hEasy
  constructor
  · unfold imageExtract
    cases hop : env.imageOpen with
    | error m => exact ⟨le_refl 0, by norm_num⟩
    | ok u =>
      dsimp only
      by_cases hcond : (easyPass env).1 = "" ∨ (pyStrip (easyPass env).1).length < 10
      · rw [if_pos hcond]
        cases hd : env.imageToData with
        | ok confs =>
          cases hs : env.imageToString with
          | ok t =>
            dsimp only
            by_cases hk : (confs.filter (fun c => 0 < c)).length = 0
            · rw [if_pos hk]
              exact ⟨le_refl 0, by norm_num⟩
            · rw [if_neg hk]
              unfold meanZ
              have hne : (confs.filter (fun c => 0 < c)).map (fun c : ℤ => (c : ℚ)) ≠ [] := by
                intro h
                apply hk
                have := congrArg List.length h
                simpa using this
              have hb : ∀ a ∈ (confs.filter (fun c => 0 < c)).map (fun c : ℤ => (c : ℚ)),
                  0 ≤ a ∧ a ≤ 100 := by
                intro a ha
                obtain ⟨c, hc, rfl⟩ := List.mem_map.mp ha
                have h1 : c ∈ confs := List.mem_of_mem_filter hc
                have h2 : 0 < c := by simpa using List.of_mem_filter hc
                exact ⟨by exact_mod_cast h2.le, by exact_mod_cast hTess confs hd c h1⟩
              exact ⟨meanQ_nonneg _ (fun a ha => (hb a ha).1),
                     meanQ_le _ 100 hne (fun a ha => (hb a ha).2)⟩
          | error m => exact hep
        | error m =>
          cases hs : env.imageToString with
          | ok t => exact ⟨by norm_num, by norm_num⟩
          | error m2 => exact hep
      · rw [if_neg hcond]
        exact hep
  · intro t hop hblank hs hstrip
    unfold imageExtract
    rw [hop]
    dsimp only
    have hcond : (easyPass env).1 = "" ∨ (pyStrip (easyPass env).1).length < 10 :=
      Or.inl hblank
    rw [if_pos hcond]
    cases hd : env.imageToData with
    | ok confs =>
      rw [hs]
      dsimp only
      rw [if_pos (by rw [hstrip]; rfl)]
      rfl
    | error m =>
      rw [hs]
      dsimp only
      rw [if_pos (by rw [hstrip]; rfl)]
      rfl

/-- All OCR calls succeed but the image is blank: EasyOCR unavailable,
`image_to_data` returns no tokens, `image_to_string` returns whitespace. -/
def envBlankImage : OcrEnv :=
  { imageOpen := .ok (), easyAvailable := false, readtext := .error "not installed",
    imageToData := .ok [], imageToString := .ok "   " }

/-- Witness for `c6_confidence_range_and_warning` on a blank image. -/
theorem c6_confidence_range_and_warning_witness :
    (0 ≤ (imageExtract envBlankImage).ocr_confidence ∧
      (imageExtract envBlankImage).ocr_confidence ≤ 100) ∧
    (imageExtract envBlankImage).text = noTextWarning := by
  have h := c6_confidence_range_and_warning envBlankImage
    (fun results hres => by simp [envBlankImage] at hres)
    (fun confs hd c hc => by
      simp only [envBlankImage, Except.ok.injEq] at hd
      rw [← hd] at hc
      simp at hc)
  exact ⟨h.1, h.2 "   " rfl rfl rfl rfl⟩

end ImgOcr

namespace ImgOcr

open PyStr

/-- A Tesseract-path environment: EasyOCR absent, one token at confidence 80
(pytesseract's 0–100 scale), a long recognized text. -/
def envTess80 : OcrEnv :=
  { imageOpen := .ok (), easyAvailable := false, readtext := .error "not installed",
    imageToData := .ok [80], imageToString := .ok "The quick brown fox jumps" }

/-- C8: when the EasyOCR pass produces the final text (reader available, a
successful `readtext`, and the joined text non-empty with at least 10
characters after stripping, so the Tesseract fallback is skipped), the
returned `ocr_confidence` is the mean of the kept (`> 0.3`) per-detection
confidences on EasyOCR's 0-to-1 scale — hence never above 1 when the
detections are — and `processing_method = "easyocr"`; whereas the Tesseract
path (last two conjuncts, at a concrete environment) reports on the 0-to-100
scale: the unit of `ocr_confidence` depends on `processing_method`. -/
theorem c8_confidence_unit_depends_on_method (env : OcrEnv)
    (hAvail : env.easyAvailable = true)
    (results : List (String × ℚ))
    (hres : env.readtext = .ok results)
    (hconf : ∀ r ∈ results, r.2 ≤ 1)
    (hkept : results.filter (fun r => 3/10 < r.2) ≠ [])
    (hopen : env.imageOpen = .ok ())
    (hguard : ¬((easyPass env).1 = "" ∨ (pyStrip (easyPass env).1).length < 10)) :
    (imageExtract env).processing_method = "easyocr" ∧
    (imageExtract env).ocr_confidence
        = meanQ ((results.filter (fun r => 3/10 < r.2)).map Prod.snd) ∧
    (imageExtract env).ocr_confidence ≤ 1 ∧
    (imageExtract envTess80).ocr_confidence = 80 ∧
    (imageExtract envTess80).processing_method = "tesseract_ocr" := by
  have hfb : imageExtract env =
      { text := if (pyStrip (easyPass env).1).length = 0 then noTextWarning
                else (easyPass env).1,
        ocr_confidence := (easyPass env).2.1,
        processing_method := (easyPass env).2.2.1,
        errors := (easyPass env).2.2.2 } := by
    unfold imageExtract
    rw [hopen]
    dsimp only
    rw [if_neg hguard]
    rfl
  have hkeptlen : ((results.filter (fun r => 3/10 < r.2)).map Prod.snd).length ≠ 0 := by
    intro h
    apply hkept
    rwa [List.length_map, List.length_eq_zero] at h
  have hepconf : (easyPass env).2.1
      = meanQ ((results.filter (fun r => 3/10 < r.2)).map Prod.snd) := by
    unfold easyPass
    rw [hAvail, hres]
    rw [if_pos rfl]
    dsimp only
    rw [if_neg hkeptlen]
  have hepmethod : (easyPass env).2.2.1 = "easyocr" := by
    unfold easyPass
    rw [hAvail, hres]
    rw [if_pos rfl]
  have hne : (results.filter (fun r => 3/10 < r.2)).map Prod.snd ≠ [] := by
    intro h
    exact hkeptlen (by rw [h]; rfl)
  have hb : ∀ a ∈ (results.filter (fun r => 3/10 < r.2)).map Prod.snd, a ≤ 1 := by
    intro a ha
    obtain ⟨r, hr, rfl⟩ := List.mem_map.mp ha
    exact hconf r (List.mem_of_mem_filter hr)
  refine ⟨?_, ?_, ?_, ?_, ?_⟩
  · rw [hfb]; exact hepmethod
  · rw [hfb]; exact hepconf
  · rw [hfb]
    dsimp only
    rw [hepconf]
    exact meanQ_le _ 1 hne hb
  · show meanZ [80] = 80
    unfold meanZ meanQ
    norm_num
  · rfl

end ImgOcr

namespace ImgOcr

open PyStr

/-- EasyOCR succeeds with one long, confident detection. -/
def envEasyGood : OcrEnv :=
  { imageOpen := .ok (), easyAvailable := true,
    readtext := .ok [("Hello there world", 9/10)],
    imageToData := .error "unused", imageToString := .error "unused" }

lemma envEasyGood_filter :
    List.filter (fun r => 3/10 < r.2) [("Hello there world", (9:ℚ)/10)]
      = [("Hello there world", (9:ℚ)/10)] := by
  have h : ((3:ℚ)/10 < 9/10) := by norm_num
  simp [List.filter, h]

lemma envEasyGood_easyPass :
    easyPass envEasyGood
      = ("Hello there world", meanQ [(9:ℚ)/10], "easyocr", []) := by
  unfold easyPass envEasyGood
  rw [if_pos rfl]
  dsimp only
  rw [envEasyGood_filter]
  dsimp only [List.map]
  rw [if_neg (by simp)]
  rfl

/-- Witness for `c8_confidence_unit_depends_on_method`. -/
theorem c8_confidence_unit_witness :
    (imageExtract envEasyGood).processing_method = "easyocr" ∧
    (imageExtract envEasyGood).ocr_confidence ≤ 1 := by
  have h := c8_confidence_unit_depends_on_method envEasyGood rfl
    [("Hello there world", (9:ℚ)/10)] rfl
    (by
      rintro r hr
      simp only [List.mem_singleton] at hr
      subst hr
      norm_num)
    (by rw [envEasyGood_filter]; simp)
    rfl
    (by rw [envEasyGood_easyPass]; decide)
  exact ⟨h.1, h.2.2.1⟩

end ImgOcr

namespace Trans

open PyStr

/-- Does this character end a sentence for `re.split(r'(?<=[.!?])\s+', ...)`? -/
def isSentEnd (c : Char) : Bool := c = '.' || c = '!' || c = '?'

/-- Did the previously scanned character end a sentence (the `(?<=[.!?])`
lookbehind)? -/
def prevEnds : Option Char → Bool
  | some p => isSentEnd p
  | none => false

/-- Scanner state machine, one character per step: `skipping` is true while
inside a separator whitespace run (the greedy `\s+` after a match started);
a whitespace character whose predecessor ends a sentence starts a run and
emits the accumulated piece; any other character accumulates. -/
def sentSplitGo : List Char → Option Char → Bool → List Char → List (List Char)
  | [], _, _, acc => [acc.reverse]
  | c :: rest, prev, skipping, acc =>
    if skipping && isPySpace c then
      sentSplitGo rest (some c) true acc
    else if isPySpace c && prevEnds prev then
      acc.reverse :: sentSplitGo rest (some c) true []
    else
      sentSplitGo rest (some c) false (c :: acc)

/-- `re.split(r'(?<=[.!?])\s+', text)`. -/
def sentenceSplit (text : List Char) : List (List Char) :=
  sentSplitGo text none false []

/-- `' '.join` on character-list pieces. -/
def joinSpaceChars : List (List Char) → List Char
  | [] => []
  | [s] => s
  | s :: rest => s ++ ' ' :: joinSpaceChars rest

/-- The accumulator of the chunking loop of `split_text_for_translation`:
finished chunks, the current chunk's sentences, and `current_length` (the sum
of the sentence lengths, excluding join spaces — exactly the counter the
source maintains). -/
structure ChunkState where
  chunks : List (List Char)
  current : List (List Char)
  currentLength : Nat
deriving Repr

/-- One iteration of `for sentence in sentences` in
`split_text_for_translation`. -/
def chunkStep (maxLength : Nat) (st : ChunkState) (sentence : List Char) : ChunkState :=
  if maxLength < st.currentLength + sentence.length ∧ st.current ≠ [] then
    { chunks := st.chunks ++ [joinSpaceChars st.current],
      current := [sentence], currentLength := sentence.length }
  else
    { chunks := st.chunks, current := st.current ++ [sentence],
      currentLength := st.currentLength + sentence.length }

/-- `split_text_for_translation(text, max_length)` (default `max_length` is
500 at the call sites). -/
def split_text_for_translation (text : List Char) (maxLength : Nat) : List (List Char) :=
  if text.length ≤ maxLength then [text]
  else
    let sentences := sentenceSplit text
    let st := sentences.foldl (chunkStep maxLength) ⟨[], [], 0⟩
    if st.current ≠ [] then st.chunks ++ [joinSpaceChars st.current] else st.chunks

end Trans

namespace Trans

/-- A single 501-character sentence (no sentence-ending punctuation). -/
def c7text1 : List Char := List.replicate 501 'a'

/-- A 602-character text whose two sentences are separated by a double
space. -/
def c7text2 : List Char :=
  List.replicate 299 'a' ++ '.' :: ' ' :: ' ' :: List.replicate 300 'b'

set_option maxRecDepth 80000 in
/-- C7 counterexample, at the call sites' configured maximum of 500:
(1) a chunk can exceed the maximum (a single long sentence is emitted
whole), and (2) characters of the input can be lost (the double-space
separator is collapsed, so the chunks hold 600 of the 602 input
characters) — so neither "each chunk bounded by the maximum" nor "every
character appears in exactly one chunk" holds. -/
theorem c7_counterexample :
    ((split_text_for_translation c7text1 500).all (fun ch => ch.length ≤ 500)) = false ∧
    ((split_text_for_translation c7text2 500).map List.length).sum = 600 ∧
    c7text2.length = 602 := by
  refine ⟨?_, ?_, ?_⟩ <;> decide

/-- A chunk's sentence group is either within the budget (total sentence
characters at most `maxLength`, join spaces not counted — the counter the
source maintains) or a single oversized sentence. -/
def chunkGroupOk (maxLength : Nat) (g : List (List Char)) : Prop :=
  (g.map List.length).sum ≤ maxLength ∨ ∃ s, g = [s] ∧ maxLength < s.length

/-- Loop invariant of the chunking fold: the finished chunks plus the
running chunk partition the processed sentences in order. -/
def stInv (maxLength : Nat) (pre : List (List Char)) (st : ChunkState) : Prop :=
  ∃ groups : List (List (List Char)),
    groups.flatten ++ st.current = pre ∧
    st.chunks = groups.map joinSpaceChars ∧
    (∀ g ∈ groups, g ≠ [] ∧ chunkGroupOk maxLength g) ∧
    st.currentLength = (st.current.map List.length).sum ∧
    (st.current = [] ∨ chunkGroupOk maxLength st.current)

lemma singletonGroupOk (maxLength : Nat) (s : List Char) :
    chunkGroupOk maxLength [s] := by
  rcases le_or_lt s.length maxLength with h | h
  · exact Or.inl (by simpa using h)
  · exact Or.inr ⟨s, rfl, h⟩

lemma chunkStep_inv (maxLength : Nat) (pre : List (List Char)) (st : ChunkState)
    (s : List Char) (h : stInv maxLength pre st) :
    stInv maxLength (pre ++ [s]) (chunkStep maxLength st s) := by
  obtain ⟨groups, hflat, hchunks, hgs, hlen, hcur⟩ := h
  unfold chunkStep
  by_cases hc : maxLength < st.currentLength + s.length ∧ st.current ≠ []
  · rw [if_pos hc]
    refine ⟨groups ++ [st.current], ?_, ?_, ?_, ?_, ?_⟩
    · simp only [List.flatten_append, List.flatten_cons, List.flatten_nil,
        List.append_nil, List.append_assoc]
      rw [← List.append_assoc, hflat]
    · simp [hchunks]
    · intro g hg
      rcases List.mem_append.mp hg with hg1 | hg2
      · exact hgs g hg1
      · have hgcur : g = st.current := by simpa using hg2
        subst hgcur
        exact ⟨hc.2, hcur.resolve_left hc.2⟩
    · simp
    · exact Or.inr (singletonGroupOk maxLength s)
  · rw [if_neg hc]
    refine ⟨groups, ?_, hchunks, hgs, ?_, ?_⟩
    · rw [← List.append_assoc, hflat]
    · simp [hlen]
    · rcases List.eq_nil_or_concat st.current with hnil | ⟨L, b, hb⟩
      · rw [hnil]
        simp only [List.nil_append]
        exact Or.inr (singletonGroupOk maxLength s)
      · have hne : st.current ≠ [] := by
          rw [hb]; simp
        have hle : st.currentLength + s.length ≤ maxLength := by
          by_contra hgt
          exact hc ⟨lt_of_not_le hgt, hne⟩
        refine Or.inr (Or.inl ?_)
        simp only [List.map_append, List.sum_append, List.map_cons, List.map_nil,
          List.sum_cons, List.sum_nil]
        rw [← hlen]
        omega

lemma chunkFold_inv (maxLength : Nat) (sentences : List (List Char))
    (pre : List (List Char)) (st : ChunkState) (h : stInv maxLength pre st) :
    stInv maxLength (pre ++ sentences)
      (sentences.foldl (chunkStep maxLength) st) := by
  induction sentences generalizing pre st with
  | nil => simpa using h
  | cons s rest ih =>
    have h1 := chunkStep_inv maxLength pre st s h
    have h2 := ih (pre ++ [s]) (chunkStep maxLength st s) h1
    simpa using h2

/-- C7 amended: for text longer than the maximum, the produced chunks are the
space-joins of a partition of the regex sentence list, in order: every
sentence lands in exactly one chunk, chunk concatenation preserves sentence
order, no sentence is split across chunks, and each chunk's sentences total
at most `maxLength` characters (join spaces not counted by the source's
counter) unless the chunk is a single sentence longer than `maxLength`.
Inter-sentence whitespace runs are replaced by single joining spaces, so
separator characters (beyond one space) are not preserved. -/
theorem c7_chunking_partition (text : List Char) (maxLength : Nat)
    (h : maxLength < text.length) :
    ∃ groups : List (List (List Char)),
      groups.flatten = sentenceSplit text ∧
      (∀ g ∈ groups, g ≠ []) ∧
      (∀ g ∈ groups, chunkGroupOk maxLength g) ∧
      split_text_for_translation text maxLength = groups.map joinSpaceChars := by
  have hbase : stInv maxLength [] ⟨[], [], 0⟩ :=
    ⟨[], by simp, by simp, by simp, by simp, Or.inl rfl⟩
  have hinv := chunkFold_inv maxLength (sentenceSplit text) [] ⟨[], [], 0⟩ hbase
  rw [List.nil_append] at hinv
  unfold split_text_for_translation
  rw [if_neg (by omega)]
  dsimp only
  set st := List.foldl (chunkStep maxLength) ⟨[], [], 0⟩ (sentenceSplit text) with hst
  obtain ⟨groups, hflat, hchunks, hgs, _, hcur⟩ := hinv
  by_cases hc : st.current = []
  · refine ⟨groups, ?_, fun g hg => (hgs g hg).1, fun g hg => (hgs g hg).2, ?_⟩
    · rw [← hflat, hc, List.append_nil]
    · rw [if_neg (by simp [hc]), hchunks]
  · refine ⟨groups ++ [st.current], ?_, ?_, ?_, ?_⟩
    · simpa using hflat
    · intro g hg
      rcases List.mem_append.mp hg with hg1 | hg2
      · exact (hgs g hg1).1
      · have heq : g = st.current := by simpa using hg2
        rw [heq]; exact hc
    · intro g hg
      rcases List.mem_append.mp hg with hg1 | hg2
      · exact (hgs g hg1).2
      · have heq : g = st.current := by simpa using hg2
        rw [heq]; exact hcur.resolve_left hc
    · rw [if_pos (by simp [hc]), hchunks]
      simp

/-- Witness for `c7_chunking_partition` on a concrete four-sentence text. -/
theorem c7_chunking_partition_witness :
    8 < ("Hello. World! What? end".toList).length ∧
    ∃ groups : List (List (List Char)),
      groups.flatten = sentenceSplit ("Hello. World! What? end".toList) ∧
      (∀ g ∈ groups, g ≠ []) ∧
      (∀ g ∈ groups, chunkGroupOk 8 g) ∧
      split_text_for_translation ("Hello. World! What? end".toList) 8
        = groups.map joinSpaceChars :=
  ⟨by decide, c7_chunking_partition ("Hello. World! What? end".toList) 8 (by decide)⟩

end Trans

namespace Difflib

/-- Ascending list of the positions of `c` in `b` (the `b2j` occurrence
lists built by `SequenceMatcher.__chain_b`). -/
def occIdx (b : List Char) (c : Char) : List Nat :=
  (List.range b.length).filter (fun j => b.getD j 'a' = c)

/-- The `autojunk` heuristic: for `len(b) >= 200`, an element occurring more
than `len(b) // 100 + 1` times is "popular" and is purged from `b2j`. -/
def isPopular (b : List Char) (c : Char) : Bool :=
  200 ≤ b.length && b.length / 100 + 1 < b.count c

/-- `b2j.get(elt, [])` after the popular purge. -/
def b2j (b : List Char) (c : Char) : List Nat :=
  if isPopular b c then [] else occIdx b c

/-- `self.bjunk.__contains__`: with `isjunk=None` (the call site passes
`SequenceMatcher(None, text1, text2)`) the junk set is empty. -/
def isbjunk (_ : Char) : Bool := false

/-- A `Match(i, j, size)` triple. -/
structure Best where
  i : Nat
  j : Nat
  size : Nat
deriving DecidableEq, Repr

/-- Body of `for j in b2j.get(a[i], [])`: compute `k = j2len.get(j-1, 0) + 1`
from last row's map `old`, record it in the new row map, and take the new
best on a strict improvement. -/
def rowStep (old : Nat → Nat) (i : Nat) (acc : Best × (Nat → Nat)) (j : Nat) :
    Best × (Nat → Nat) :=
  let k := (if j = 0 then 0 else old (j - 1)) + 1
  let best := if acc.1.size < k then Best.mk (i + 1 - k) (j + 1 - k) k else acc.1
  (best, fun j2 => if j2 = j then k else acc.2 j2)

/-- The positions the inner loop visits: `if j < blo: continue` filters,
`if j >= bhi: break` cuts the ascending list. -/
def rowJs (b : List Char) (blo bhi : Nat) (c : Char) : List Nat :=
  ((b2j b c).takeWhile (fun j => j < bhi)).filter (fun j => blo ≤ j)

/-- One iteration of `for i in range(alo, ahi)`: fold the inner loop with the
previous row's `j2len` fixed and a fresh `newj2len`. -/
def processRow (a b : List Char) (blo bhi : Nat) (st : Best × (Nat → Nat))
    (i : Nat) : Best × (Nat → Nat) :=
  (rowJs b blo bhi (a.getD i 'a')).foldl (rowStep st.2 i) (st.1, fun _ => 0)

/-- The dynamic-programming phase of `find_longest_match`, started from
`besti, bestj, bestsize = alo, blo, 0` and an empty `j2len`. -/
def flmLoop (a b : List Char) (alo ahi blo bhi : Nat) : Best :=
  ((List.range' alo (ahi - alo)).foldl (processRow a b blo bhi)
    (Best.mk alo blo 0, fun _ => 0)).1

/-- Backward extension `while besti > alo and bestj > blo and
isbjunk(b[bestj-1]) == junkFlag and a[besti-1] == b[bestj-1]` (the non-junk
loop has `junkFlag = false`, the junk loop `true`). -/
def extLow (a b : List Char) (alo blo : Nat) (junkFlag : Bool)
    (besti bestj bestsize : Nat) : Best :=
  if alo < besti ∧ blo < bestj ∧ isbjunk (b.getD (bestj - 1) 'a') = junkFlag ∧
      a.getD (besti - 1) 'a' = b.getD (bestj - 1) 'a' then
    extLow a b alo blo junkFlag (besti - 1) (bestj - 1) (bestsize + 1)
  else
    Best.mk besti bestj bestsize
termination_by besti

/-- Forward extension `while besti+bestsize < ahi and bestj+bestsize < bhi
and isbjunk(b[bestj+bestsize]) == junkFlag and a[besti+bestsize] ==
b[bestj+bestsize]`. -/
def extHigh (a b : List Char) (ahi bhi : Nat) (junkFlag : Bool)
    (besti bestj bestsize : Nat) : Best :=
  if besti + bestsize < ahi ∧ bestj + bestsize < bhi ∧
      isbjunk (b.getD (bestj + bestsize) 'a') = junkFlag ∧
      a.getD (besti + bestsize) 'a' = b.getD (bestj + bestsize) 'a' then
    extHigh a b ahi bhi junkFlag besti bestj (bestsize + 1)
  else
    Best.mk besti bestj bestsize
termination_by ahi - (besti + bestsize)
decreasing_by omega

/-- `find_longest_match(alo, ahi, blo, bhi)`: DP phase, then the four
extension loops in source order (non-junk backward/forward, then junk
backward/forward; the junk loops are no-ops since `bjunk` is empty). -/
def find_longest_match (a b : List Char) (alo ahi blo bhi : Nat) : Best :=
  let d := flmLoop a b alo ahi blo bhi
  let e1 := extLow a b alo blo false d.i d.j d.size
  let e2 := extHigh a b ahi bhi false e1.i e1.j e1.size
  let e3 := extLow a b alo blo true e2.i e2.j e2.size
  extHigh a b ahi bhi true e3.i e3.j e3.size

end Difflib

namespace Difflib

/-- DP invariant after `r` rows: every `j2len` entry is at most `r`, and the
best match starts at or after `alo` and ends by row `alo + r`. -/
def dpInv (alo r : Nat) (st : Best × (Nat → Nat)) : Prop :=
  (∀ j, st.2 j ≤ r) ∧ alo ≤ st.1.i ∧ st.1.i + st.1.size ≤ alo + r

lemma rowStep_inv_aux (alo r i k j : Nat) (hk : k ≤ r + 1) (hi : i = alo + r)
    (s : Best × (Nat → Nat)) (h1 : ∀ j', s.2 j' ≤ r + 1) (h2 : alo ≤ s.1.i)
    (h3 : s.1.i + s.1.size ≤ i + 1) :
    (∀ j', (if j' = j then k else s.2 j') ≤ r + 1) ∧
    alo ≤ (if s.1.size < k then Best.mk (i + 1 - k) (j + 1 - k) k else s.1).i ∧
    (if s.1.size < k then Best.mk (i + 1 - k) (j + 1 - k) k else s.1).i +
      (if s.1.size < k then Best.mk (i + 1 - k) (j + 1 - k) k else s.1).size ≤ i + 1 := by
  refine ⟨?_, ?_, ?_⟩
  · intro j'
    split
    · exact hk
    · exact h1 j'
  · split
    · dsimp only
      omega
    · exact h2
  · split
    · dsimp only
      omega
    · exact h3

lemma rowStep_inv (old : Nat → Nat) (alo r i j : Nat) (hold : ∀ j', old j' ≤ r)
    (hi : i = alo + r) (s : Best × (Nat → Nat))
    (h1 : ∀ j', s.2 j' ≤ r + 1) (h2 : alo ≤ s.1.i) (h3 : s.1.i + s.1.size ≤ i + 1) :
    (∀ j', (rowStep old i s j).2 j' ≤ r + 1) ∧ alo ≤ (rowStep old i s j).1.i ∧
      (rowStep old i s j).1.i + (rowStep old i s j).1.size ≤ i + 1 := by
  have hk : (if j = 0 then 0 else old (j - 1)) + 1 ≤ r + 1 := by
    split
    · omega
    · have := hold (j - 1); omega
  exact rowStep_inv_aux alo r i ((if j = 0 then 0 else old (j - 1)) + 1) j hk hi s h1 h2 h3

lemma rowFold_inv (old : Nat → Nat) (alo r i : Nat) (hold : ∀ j, old j ≤ r)
    (hi : i = alo + r) :
    ∀ (js : List Nat) (s : Best × (Nat → Nat)),
      (∀ j, s.2 j ≤ r + 1) → alo ≤ s.1.i → s.1.i + s.1.size ≤ i + 1 →
      (∀ j, (js.foldl (rowStep old i) s).2 j ≤ r + 1) ∧
      alo ≤ (js.foldl (rowStep old i) s).1.i ∧
      (js.foldl (rowStep old i) s).1.i + (js.foldl (rowStep old i) s).1.size ≤ i + 1 := by
  intro js
  induction js with
  | nil => intro s h1 h2 h3; exact ⟨h1, h2, h3⟩
  | cons j js ih =>
    intro s h1 h2 h3
    simp only [List.foldl_cons]
    have hs := rowStep_inv old alo r i j hold hi s h1 h2 h3
    exact ih (rowStep old i s j) hs.1 hs.2.1 hs.2.2

lemma processRow_inv (a b : List Char) (alo blo bhi r : Nat)
    (st : Best × (Nat → Nat)) (h : dpInv alo r st) :
    dpInv alo (r + 1) (processRow a b blo bhi st (alo + r)) := by
  obtain ⟨h1, h2, h3⟩ := h
  unfold processRow
  have := rowFold_inv st.2 alo r (alo + r) h1 rfl
    (rowJs b blo bhi (a.getD (alo + r) 'a')) (st.1, fun _ => 0)
    (fun j => by simp) h2 (by dsimp only; omega)
  exact ⟨this.1, this.2.1, by have := this.2.2; omega⟩

lemma dpInv_fold (a b : List Char) (alo blo bhi : Nat) :
    ∀ (n r : Nat) (st : Best × (Nat → Nat)), dpInv alo r st →
      dpInv alo (r + n) ((List.range' (alo + r) n).foldl (processRow a b blo bhi) st) := by
  intro n
  induction n with
  | zero => intro r st h; simpa using h
  | succ n ih =>
    intro r st h
    rw [List.range'_succ]
    simp only [List.foldl_cons]
    have h1 := processRow_inv a b alo blo bhi r st h
    have h2 := ih (r + 1) _ h1
    rw [show alo + (r + 1) = alo + r + 1 by omega] at h2
    rw [show r + (n + 1) = r + 1 + n by omega]
    exact h2

lemma flmLoop_bounds (a b : List Char) (alo ahi blo bhi : Nat) :
    alo ≤ (flmLoop a b alo ahi blo bhi).i ∧
    (flmLoop a b alo ahi blo bhi).i + (flmLoop a b alo ahi blo bhi).size
      ≤ alo + (ahi - alo) := by
  have hbase : dpInv alo 0 (Best.mk alo blo 0, fun _ => 0) :=
    ⟨fun j => le_refl 0, le_refl alo, by simp⟩
  have h := dpInv_fold a b alo blo bhi (ahi - alo) 0 _ hbase
  rw [Nat.add_zero] at h
  rw [Nat.zero_add] at h
  exact ⟨h.2.1, h.2.2⟩

lemma extLow_spec (a b : List Char) (alo blo : Nat) (jf : Bool) :
    ∀ besti bestj bestsize, alo ≤ besti →
      alo ≤ (extLow a b alo blo jf besti bestj bestsize).i ∧
      (extLow a b alo blo jf besti bestj bestsize).i
        + (extLow a b alo blo jf besti bestj bestsize).size = besti + bestsize := by
  intro besti
  induction besti using Nat.strong_induction_on with
  | _ besti ih =>
    intro bestj bestsize hle
    rw [extLow]
    split
    · next h =>
      have h1 : besti - 1 < besti := by omega
      have h2 := ih (besti - 1) h1 (bestj - 1) (bestsize + 1) (by omega)
      exact ⟨h2.1, by rw [h2.2]; omega⟩
    · exact ⟨hle, rfl⟩

lemma extHigh_spec (a b : List Char) (ahi bhi : Nat) (jf : Bool)
    (besti bestj : Nat) :
    ∀ n bestsize, ahi - (besti + bestsize) = n →
      (extHigh a b ahi bhi jf besti bestj bestsize).i = besti ∧
      (extHigh a b ahi bhi jf besti bestj bestsize).j = bestj ∧
      ((extHigh a b ahi bhi jf besti bestj bestsize).size = bestsize ∨
        besti + (extHigh a b ahi bhi jf besti bestj bestsize).size ≤ ahi) := by
  intro n
  induction n using Nat.strong_induction_on with
  | _ n ih =>
    intro bestsize hn
    rw [extHigh]
    split
    · next h =>
      have hlt : besti + bestsize < ahi := h.1
      have h2 := ih (ahi - (besti + (bestsize + 1))) (by omega) (bestsize + 1) rfl
      exact ⟨h2.1, h2.2.1, Or.inr (by
        rcases h2.2.2 with heq | hle
        · rw [heq]; omega
        · exact hle)⟩
    · exact ⟨rfl, rfl, Or.inl rfl⟩

lemma extLow_junk_noop (a b : List Char) (alo blo : Nat)
    (besti bestj bestsize : Nat) :
    extLow a b alo blo true besti bestj bestsize = Best.mk besti bestj bestsize := by
  rw [extLow]
  rw [if_neg]
  intro h
  exact absurd h.2.2.1 (by simp [isbjunk])

lemma extHigh_junk_noop (a b : List Char) (ahi bhi : Nat)
    (besti bestj bestsize : Nat) :
    extHigh a b ahi bhi true besti bestj bestsize = Best.mk besti bestj bestsize := by
  rw [extHigh]
  rw [if_neg]
  intro h
  exact absurd h.2.2.1 (by simp [isbjunk])

/-- With empty `bjunk`, `find_longest_match` is the DP phase followed by the
two non-junk extension loops. -/
lemma flm_eq_e2 (a b : List Char) (alo ahi blo bhi : Nat) :
    find_longest_match a b alo ahi blo bhi
      = extHigh a b ahi bhi false
          (extLow a b alo blo false (flmLoop a b alo ahi blo bhi).i
            (flmLoop a b alo ahi blo bhi).j (flmLoop a b alo ahi blo bhi).size).i
          (extLow a b alo blo false (flmLoop a b alo ahi blo bhi).i
            (flmLoop a b alo ahi blo bhi).j (flmLoop a b alo ahi blo bhi).size).j
          (extLow a b alo blo false (flmLoop a b alo ahi blo bhi).i
            (flmLoop a b alo ahi blo bhi).j (flmLoop a b alo ahi blo bhi).size).size := by
  simp only [find_longest_match]
  rw [extLow_junk_noop, extHigh_junk_noop]

/-- The bounds the queue recursion of `get_matching_blocks` needs: a
non-empty match lies inside `[alo, ahi)`. -/
lemma flm_bounds (a b : List Char) (alo ahi blo bhi : Nat)
    (h : (find_longest_match a b alo ahi blo bhi).size ≠ 0) :
    alo ≤ (find_longest_match a b alo ahi blo bhi).i ∧
    (find_longest_match a b alo ahi blo bhi).i
      + (find_longest_match a b alo ahi blo bhi).size ≤ ahi := by
  have hd := flmLoop_bounds a b alo ahi blo bhi
  set d := flmLoop a b alo ahi blo bhi with hdd
  have he1 := extLow_spec a b alo blo false d.i d.j d.size hd.1
  set e1 := extLow a b alo blo false d.i d.j d.size with he1d
  have he2 := extHigh_spec a b ahi bhi false e1.i e1.j (ahi - (e1.i + e1.size)) e1.size rfl
  rw [flm_eq_e2] at h ⊢
  rw [← hdd, ← he1d] at h ⊢
  set e2 := extHigh a b ahi bhi false e1.i e1.j e1.size with he2d
  rw [he2.1]
  by_cases hcase : e2.size = e1.size
  · rw [hcase] at h ⊢
    have hsum : e1.i + e1.size ≤ alo + (ahi - alo) := by
      rw [he1.2]; exact hd.2
    by_cases hao : alo ≤ ahi
    · exact ⟨he1.1, by omega⟩
    · exfalso
      apply h
      have hrange : ahi - alo = 0 := by omega
      have hdval : d = Best.mk alo blo 0 := by
        rw [hdd]
        unfold flmLoop
        rw [hrange]
        rfl
      have he1val : e1 = Best.mk alo blo 0 := by
        rw [he1d, hdval]
        dsimp only
        rw [extLow]
        rw [if_neg (by omega)]
      rw [he1val]
  · rcases he2.2.2 with heq | hle
    · exact absurd heq hcase
    · exact ⟨he1.1, hle⟩

end Difflib

namespace Difflib

/-- Total `a`-side width of the pending queue ranges (termination measure). -/
def qSize (q : List (Nat × Nat × Nat × Nat)) : Nat :=
  (q.map (fun t => t.2.1 - t.1)).sum

/-- The `while queue:` loop of `get_matching_blocks`: pop a region, find its
longest match, and push the left and right sub-regions when non-degenerate.
The Python list is a stack popped from the end; the head of our list is the
top, and of the two pushed sub-regions the second is popped first. -/
def gmbGo (a b : List Char) : List (Nat × Nat × Nat × Nat) → List Best → List Best
  | [], acc => acc
  | (alo, ahi, blo, bhi) :: queue, acc =>
    let m := find_longest_match a b alo ahi blo bhi
    if _hm : m.size = 0 then
      gmbGo a b queue acc
    else
      let q1 : List (Nat × Nat × Nat × Nat) :=
        if alo < m.i ∧ blo < m.j then [(alo, m.i, blo, m.j)] else []
      let q2 : List (Nat × Nat × Nat × Nat) :=
        if m.i + m.size < ahi ∧ m.j + m.size < bhi then
          [(m.i + m.size, ahi, m.j + m.size, bhi)] else []
      gmbGo a b (q2 ++ q1 ++ queue) (m :: acc)
termination_by q _ => (qSize q, q.length)
decreasing_by
  · rcases Nat.eq_zero_or_pos (ahi - alo) with h0 | hpos
    · have hq : qSize ((alo, ahi, blo, bhi) :: queue) = qSize queue := by
        simp [qSize, h0]
      rw [hq]
      exact Prod.Lex.right _ (by simp)
    · apply Prod.Lex.left
      simp only [qSize, List.map_cons, List.sum_cons]
      omega
  · have hb := flm_bounds a b alo ahi blo bhi _hm
    have hbm : alo ≤ m.i ∧ m.i + m.size ≤ ahi := hb
    apply Prod.Lex.left
    have h1 : qSize q1 ≤ m.i - alo := by
      simp only [q1]
      split
      · simp [qSize]
      · simp [qSize]
    have h2 : qSize q2 ≤ ahi - (m.i + m.size) := by
      simp only [q2]
      split
      · simp [qSize]
      · simp [qSize]
    have hq : qSize (q2 ++ q1 ++ queue) = qSize q2 + (qSize q1 + qSize queue) := by
      simp [qSize]
    have hq2 : qSize ((alo, ahi, blo, bhi) :: queue) = (ahi - alo) + qSize queue := by
      simp [qSize]
    rw [hq, hq2]
    have hm1 : 1 ≤ m.size := Nat.one_le_iff_ne_zero.mpr _hm
    omega

/-- Insertion of a triple into a lexicographically sorted block list
(`matching_blocks.sort()`). -/
def blockLeb (x y : Best) : Bool :=
  x.i < y.i || (x.i = y.i && (x.j < y.j || (x.j = y.j && x.size ≤ y.size)))

def insertBlock (x : Best) : List Best → List Best
  | [] => [x]
  | y :: ys => if blockLeb x y then x :: y :: ys else y :: insertBlock x ys

def sortBlocks : List Best → List Best
  | [] => []
  | x :: xs => insertBlock x (sortBlocks xs)

/-- One step of the adjacent-merge loop (`i1, j1, k1` is the running block,
appended to `non_adjacent` when a non-adjacent block arrives and `k1` is
non-zero). -/
def mergeFold (st : Best × List Best) (x : Best) : Best × List Best :=
  if st.1.i + st.1.size = x.i ∧ st.1.j + st.1.size = x.j then
    (Best.mk st.1.i st.1.j (st.1.size + x.size), st.2)
  else
    (x, if st.1.size ≠ 0 then st.2 ++ [st.1] else st.2)

/-- `get_matching_blocks()`: recursive region splitting from the full range,
sort, merge adjacent blocks, and append the `(la, lb, 0)` sentinel. -/
def get_matching_blocks (a b : List Char) : List Best :=
  let blocks := sortBlocks ((gmbGo a b [(0, a.length, 0, b.length)] []).reverse)
  let fin := blocks.foldl mergeFold (Best.mk 0 0 0, [])
  (if fin.1.size ≠ 0 then fin.2 ++ [fin.1] else fin.2) ++ [Best.mk a.length b.length 0]

/-- `SequenceMatcher.ratio()`: `2.0 * matches / (la + lb)`, and `1.0` for two
empty sequences (`_calculate_ratio`). -/
def ratio (a b : List Char) : ℚ :=
  let matchSum := ((get_matching_blocks a b).map (fun m => m.size)).sum
  if a.length + b.length = 0 then 1
  else 2 * (matchSum : ℚ) / ((a.length : ℚ) + (b.length : ℚ))

/-- Is `c` one of `str.splitlines`' line-boundary characters (other than the
combined `\r\n`, handled separately)? -/
def isLineBreak (c : Char) : Bool :=
  c = '\n' || c = '\r' || c = '\x0b' || c = '\x0c' ||
  c = '\x1c' || c = '\x1d' || c = '\x1e' || c = '\x85' ||
  c = '\u2028' || c = '\u2029'

/-- `str.splitlines()` (no trailing empty line for a trailing terminator). -/
def pySplitlinesGo : List Char → List Char → List String
  | [], acc => if acc.isEmpty then [] else [String.mk acc.reverse]
  | '\r' :: '\n' :: rest, acc => String.mk acc.reverse :: pySplitlinesGo rest []
  | c :: rest, acc =>
    if isLineBreak c then String.mk acc.reverse :: pySplitlinesGo rest []
    else pySplitlinesGo rest (c :: acc)

def pySplitlines (s : String) : List String :=
  pySplitlinesGo s.data []

/-- One `{'line_number', 'text1', 'text2'}` record of
`compare_documents_with_libraries`. -/
structure Difference where
  line_number : Nat
  text1 : String
  text2 : String
deriving DecidableEq, Repr

/-- The dict `compare_documents_with_libraries` returns. -/
structure ComparisonResult where
  similarity_percentage : ℚ
  differences : List Difference
deriving DecidableEq, Repr

/-- Round-half-to-even on an exact rational (CPython's `round` on the exact
values arising here). -/
def roundHalfEven (q : ℚ) : ℤ :=
  let f := ⌊q⌋
  if q - f < 1/2 then f
  else if 1/2 < q - f then f + 1
  else if Even f then f else f + 1

/-- `round(x, 2)`. -/
def round2 (q : ℚ) : ℚ := (roundHalfEven (q * 100) : ℚ) / 100

/-- `compare_documents_with_libraries(text1, text2)` from `backend/app.py`:
similarity is `SequenceMatcher(None, text1, text2).ratio() * 100` rounded to
two decimals; differences compare line `i` of each text (missing lines count
as empty) for `i` up to the longer line count, emitting only mismatches. -/
def compare_documents_with_libraries (t1 t2 : String) : ComparisonResult :=
  let similarity := ratio t1.data t2.data
  let lines1 := pySplitlines t1
  let lines2 := pySplitlines t2
  let mx := max lines1.length lines2.length
  { similarity_percentage := round2 (similarity * 100)
    differences := (List.range mx).filterMap (fun i =>
      let l1 := lines1.getD i ""
      let l2 := lines2.getD i ""
      if l1 ≠ l2 then some (Difference.mk (i + 1) l1 l2) else none) }

end Difflib

namespace Difflib

/-- Diagonal chain value at position `j` when matching `x` against itself:
the length of the run of non-popular characters ending at `j`. -/
def diag (x : List Char) : Nat → Nat
  | 0 => if isPopular x (x.getD 0 'a') then 0 else 1
  | j + 1 => if isPopular x (x.getD (j + 1) 'a') then 0 else diag x j + 1

/-- Maximum diagonal chain value over the first `r` positions. -/
def Mpre (x : List Char) : Nat → Nat
  | 0 => 0
  | r + 1 => max (Mpre x r) (diag x r)

/-- Bound all `j2len` entries satisfy entering row `r`: the previous row's
diagonal value. -/
def rowBound (x : List Char) (r : Nat) : Nat :=
  match r with
  | 0 => 0
  | r + 1 => diag x r

/-- `k` as the inner loop computes it from the previous row's map. -/
def kval (old : Nat → Nat) (j : Nat) : Nat :=
  (if j = 0 then 0 else old (j - 1)) + 1

/-- Reflexive-scan invariant after `r` rows: the best match is diagonal, at
least as large as every diagonal chain seen, the row map is bounded by the
diagonal values and by the last row's run, and the last diagonal entry is
exact. -/
def RInv (x : List Char) (r : Nat) (st : Best × (Nat → Nat)) : Prop :=
  st.1.i = st.1.j ∧
  Mpre x r ≤ st.1.size ∧
  (∀ j, st.2 j ≤ diag x j) ∧
  (∀ j, st.2 j ≤ rowBound x r) ∧
  (1 ≤ r → st.2 (r - 1) = diag x (r - 1))

lemma diag_le_Mpre (x : List Char) : ∀ r j, j < r → diag x j ≤ Mpre x r := by
  intro r
  induction r with
  | zero => intro j h; omega
  | succ r ih =>
    intro j h
    rcases Nat.lt_succ_iff_lt_or_eq.mp h with h1 | h1
    · exact (ih j h1).trans (le_max_left _ _)
    · rw [h1]
      exact le_max_right _ _

/-- The final row map is a pointwise function of membership in the visited
positions (`k` only reads the previous row's map, never the new one). -/
lemma rowFold_map (old : Nat → Nat) (i : Nat) :
    ∀ (js : List Nat) (s : Best × (Nat → Nat)) (j' : Nat),
      (js.foldl (rowStep old i) s).2 j'
        = if j' ∈ js then kval old j' else s.2 j' := by
  intro js
  induction js with
  | nil => intro s j'; simp
  | cons j js ih =>
    intro s j'
    simp only [List.foldl_cons]
    rw [ih]
    by_cases hin : j' ∈ js
    · rw [if_pos hin, if_pos (by simp [hin])]
    · rw [if_neg hin]
      by_cases hj : j' = j
      · rw [if_pos (by simp [hj])]
        subst hj
        simp [rowStep, kval]
      · rw [if_neg (by simp [hj, hin])]
        simp [rowStep, hj]

/-- Positions whose `k` cannot beat the current best leave the best
unchanged. -/
lemma rowFold_best_noupdate (old : Nat → Nat) (i : Nat) :
    ∀ (js : List Nat) (s : Best × (Nat → Nat)),
      (∀ j ∈ js, kval old j ≤ s.1.size) →
      (js.foldl (rowStep old i) s).1 = s.1 := by
  intro js
  induction js with
  | nil => intro s h; rfl
  | cons j js ih =>
    intro s h
    simp only [List.foldl_cons]
    have hstep : (rowStep old i s j).1 = s.1 := by
      unfold rowStep
      dsimp only
      rw [if_neg (by have := h j (by simp); unfold kval at this; omega)]
    rw [ih (rowStep old i s j) (fun j2 hj2 => by
      rw [show (rowStep old i s j).1.size = s.1.size by rw [hstep]]
      exact h j2 (by simp [hj2]))]
    exact hstep

end Difflib

namespace Difflib

lemma mem_occIdx (x : List Char) (c : Char) (j : Nat) :
    j ∈ occIdx x c ↔ j < x.length ∧ x.getD j 'a' = c := by
  simp [occIdx, List.mem_filter, List.mem_range]

lemma occIdx_pairwise (x : List Char) (c : Char) :
    List.Pairwise (· < ·) (occIdx x c) :=
  List.Pairwise.sublist (List.filter_sublist _) (List.pairwise_lt_range _)

/-- On the full range the inner loop's `continue`/`break` filters are
vacuous. -/
lemma rowJs_full (x : List Char) (c : Char) :
    rowJs x 0 x.length c = b2j x c := by
  unfold rowJs
  have htw : ∀ j ∈ b2j x c, (fun j => decide (j < x.length)) j = true := by
    intro j hj
    unfold b2j at hj
    split at hj
    · simp at hj
    · have := (mem_occIdx x c j).mp hj
      simpa using this.1
  rw [List.takeWhile_eq_self_iff.mpr htw]
  rw [List.filter_eq_self.mpr (fun a _ => by simp)]

lemma diag_pos (x : List Char) (j : Nat) (h : isPopular x (x.getD j 'a') = false) :
    1 ≤ diag x j := by
  cases j with
  | zero =>
    simp only [diag]
    rw [h]
    simp
  | succ j =>
    simp only [diag]
    rw [h]
    simp

lemma diag_succ_run (x : List Char) (j : Nat)
    (h : isPopular x (x.getD (j + 1) 'a') = false) :
    diag x (j + 1) = diag x j + 1 := by
  simp only [diag]
  rw [h]
  simp

lemma diag_popular (x : List Char) (j : Nat)
    (h : isPopular x (x.getD j 'a') = true) : diag x j = 0 := by
  cases j with
  | zero =>
    simp only [diag]
    rw [h]
    simp
  | succ j =>
    simp only [diag]
    rw [h]
    simp

lemma kval_le_diag (x : List Char) (old : Nat → Nat) (c : Char) (j : Nat)
    (hc : x.getD j 'a' = c) (hpop : isPopular x c = false)
    (hold : ∀ j', old j' ≤ diag x j') :
    kval old j ≤ diag x j := by
  cases j with
  | zero =>
    unfold kval
    have h0 : isPopular x (x.getD 0 'a') = false := by rw [hc]; exact hpop
    simp only [diag]
    rw [h0]
    simp
  | succ j =>
    unfold kval
    rw [if_neg (by omega)]
    have h1 : old (j + 1 - 1) ≤ diag x j := by
      rw [Nat.add_sub_cancel]; exact hold j
    rw [diag_succ_run x j (by rw [hc]; exact hpop)]
    omega

lemma kval_le_diag_row (x : List Char) (old : Nat → Nat) (r : Nat)
    (hpop : isPopular x (x.getD r 'a') = false)
    (hold : ∀ j', old j' ≤ rowBound x r) :
    ∀ j, kval old j ≤ diag x r := by
  intro j
  have h1 : 1 ≤ diag x r := diag_pos x r hpop
  cases j with
  | zero => unfold kval; simpa using h1
  | succ j =>
    unfold kval
    rw [if_neg (by omega)]
    have h2 := hold (j + 1 - 1)
    cases r with
    | zero =>
      have h3 : old (j + 1 - 1) ≤ 0 := h2
      omega
    | succ r =>
      have h3 : old (j + 1 - 1) ≤ diag x r := h2
      rw [diag_succ_run x r hpop]
      omega

lemma kval_exact (x : List Char) (old : Nat → Nat) (r : Nat)
    (hpop : isPopular x (x.getD r 'a') = false)
    (hexact : 1 ≤ r → old (r - 1) = diag x (r - 1)) :
    kval old r = diag x r := by
  cases r with
  | zero =>
    unfold kval
    simp only [diag]
    rw [hpop]
    simp
  | succ r =>
    unfold kval
    rw [if_neg (by omega)]
    have h1 := hexact (by omega)
    simp only [Nat.add_sub_cancel] at h1 ⊢
    rw [h1, diag_succ_run x r hpop]

end Difflib

namespace Difflib

/-- The best component of one inner-loop step, in closed form. -/
lemma rowStep_best (old : Nat → Nat) (i j : Nat) (s : Best × (Nat → Nat)) :
    (rowStep old i s j).1
      = if s.1.size < kval old j then
          Best.mk (i + 1 - kval old j) (j + 1 - kval old j) (kval old j)
        else s.1 := rfl

/-- One row of the DP scan of `x` against itself preserves the diagonal
invariant: only the diagonal position `j = i` can strictly improve the best
(positions left of the diagonal are dominated by earlier diagonal chains,
positions right of it by the diagonal entry processed just before them), so
the best stays diagonal. -/
lemma processRow_RInv (x : List Char) (r : Nat) (st : Best × (Nat → Nat))
    (hr : r < x.length) (h : RInv x r st) :
    RInv x (r + 1) (processRow x x 0 x.length st r) := by
  obtain ⟨hdiag, hsize, hjd, hjr, hex⟩ := h
  unfold processRow
  rw [rowJs_full]
  by_cases hpop : isPopular x (x.getD r 'a') = true
  · -- popular character: no occurrence list, fresh empty row map
    rw [show b2j x (x.getD r 'a') = [] by unfold b2j; rw [if_pos hpop]]
    simp only [List.foldl_nil]
    have hdr : diag x r = 0 := diag_popular x r hpop
    refine ⟨hdiag, ?_, ?_, ?_, ?_⟩
    · have : Mpre x (r + 1) = max (Mpre x r) (diag x r) := rfl
      rw [this, hdr]
      simpa using hsize
    · intro j; simp
    · intro j; simp
    · intro _
      simp only [Nat.add_sub_cancel]
      rw [hdr]
  · have hpop' : isPopular x (x.getD r 'a') = false := by
      cases hcc : isPopular x (x.getD r 'a')
      · rfl
      · exact absurd hcc hpop
    rw [show b2j x (x.getD r 'a') = occIdx x (x.getD r 'a') by
      unfold b2j; rw [if_neg (by rw [hpop']; simp)]]
    have hmem : r ∈ occIdx x (x.getD r 'a') := (mem_occIdx x _ r).mpr ⟨hr, rfl⟩
    obtain ⟨A, B, hAB⟩ := List.append_of_mem hmem
    have hpw := occIdx_pairwise x (x.getD r 'a')
    rw [hAB] at hpw
    rw [List.pairwise_append] at hpw
    obtain ⟨hpA, hpB, hpAB⟩ := hpw
    rw [List.pairwise_cons] at hpB
    have hAlt : ∀ j ∈ A, j < r := fun j hj => hpAB j hj r (by simp)
    have hmemAll : ∀ j ∈ A ++ r :: B, j < x.length ∧ x.getD j 'a' = x.getD r 'a' := by
      intro j hj
      exact (mem_occIdx x _ j).mp (hAB ▸ hj)
    have hkd : ∀ j ∈ A ++ r :: B, kval st.2 j ≤ diag x j := fun j hj =>
      kval_le_diag x st.2 (x.getD r 'a') j (hmemAll j hj).2 hpop' hjd
    have hkr : ∀ j, kval st.2 j ≤ diag x r := kval_le_diag_row x st.2 r hpop' hjr
    have hkx : kval st.2 r = diag x r := kval_exact x st.2 r hpop' hex
    rw [hAB]
    -- the final row map, before touching the best
    have hmap : ∀ j', ((A ++ r :: B).foldl (rowStep st.2 r) (st.1, fun _ => 0)).2 j'
        = if j' ∈ A ++ r :: B then kval st.2 j' else 0 :=
      rowFold_map st.2 r (A ++ r :: B) (st.1, fun _ => 0)
    -- the final best
    have hA1 : ((A.foldl (rowStep st.2 r) (st.1, fun _ => 0))).1 = st.1 := by
      apply rowFold_best_noupdate
      intro j hj
      have h1 : kval st.2 j ≤ diag x j := hkd j (by simp [hj])
      have h2 : diag x j ≤ Mpre x r := diag_le_Mpre x r j (hAlt j hj)
      show kval st.2 j ≤ st.1.size
      omega
    have hbest : ((A ++ r :: B).foldl (rowStep st.2 r) (st.1, fun _ => 0)).1
        = (rowStep st.2 r (A.foldl (rowStep st.2 r) (st.1, fun _ => 0)) r).1 := by
      rw [List.foldl_append, List.foldl_cons]
      apply rowFold_best_noupdate
      intro j hj
      have h1 : kval st.2 j ≤ diag x r := hkr j
      have h2 : diag x r
          ≤ (rowStep st.2 r (A.foldl (rowStep st.2 r) (st.1, fun _ => 0)) r).1.size := by
        rw [rowStep_best, hA1, hkx]
        split
        · dsimp only
          omega
        · next hnlt => omega
      omega
    have hstep_diag :
        (rowStep st.2 r (A.foldl (rowStep st.2 r) (st.1, fun _ => 0)) r).1.i
          = (rowStep st.2 r (A.foldl (rowStep st.2 r) (st.1, fun _ => 0)) r).1.j := by
      rw [rowStep_best, hA1]
      split
      · rfl
      · exact hdiag
    have hstep_size : Mpre x (r + 1)
        ≤ (rowStep st.2 r (A.foldl (rowStep st.2 r) (st.1, fun _ => 0)) r).1.size := by
      rw [rowStep_best, hA1, hkx]
      have hM : Mpre x (r + 1) = max (Mpre x r) (diag x r) := rfl
      split
      · next hlt =>
        dsimp only
        rw [hM]
        exact max_le (by omega) le_rfl
      · next hnlt =>
        rw [hM]
        exact max_le hsize (by omega)
    refine ⟨?_, ?_, ?_, ?_, ?_⟩
    · rw [hbest]
      exact hstep_diag
    · rw [hbest]
      exact hstep_size
    · intro j'
      rw [hmap j']
      split
      · next hj' => exact hkd j' hj'
      · simp
    · intro j'
      rw [hmap j']
      have hRB : rowBound x (r + 1) = diag x r := rfl
      rw [hRB]
      split
      · next hj' => exact hkr j'
      · simp
    · intro _
      simp only [Nat.add_sub_cancel]
      rw [hmap r]
      rw [if_pos (by simp)]
      exact hkx

end Difflib

namespace Difflib

lemma RInv_fold (x : List Char) :
    ∀ (m r : Nat) (st : Best × (Nat → Nat)), RInv x r st → r + m ≤ x.length →
      RInv x (r + m) ((List.range' r m).foldl (processRow x x 0 x.length) st) := by
  intro m
  induction m with
  | zero => intro r st h _; simpa using h
  | succ m ih =>
    intro r st h hle
    rw [List.range'_succ]
    simp only [List.foldl_cons]
    have h1 := processRow_RInv x r st (by omega) h
    have h2 := ih (r + 1) _ h1 (by omega)
    rw [show r + (m + 1) = r + 1 + m by omega]
    exact h2

/-- The DP phase on `(x, x)` over the full range returns a diagonal best. -/
lemma flmLoop_diag (x : List Char) :
    (flmLoop x x 0 x.length 0 x.length).i = (flmLoop x x 0 x.length 0 x.length).j := by
  have hbase : RInv x 0 (Best.mk 0 0 0, fun _ => 0) := by
    refine ⟨rfl, ?_, ?_, ?_, ?_⟩
    · simp [Mpre]
    · intro j; simp
    · intro j; exact Nat.le_refl 0
    · intro h; omega
  have h := RInv_fold x x.length 0 (Best.mk 0 0 0, fun _ => 0) hbase (by omega)
  unfold flmLoop
  rw [Nat.sub_zero]
  exact h.1

/-- Backward extension from a diagonal start on `(x, x)` runs to the origin. -/
lemma extLow_refl (x : List Char) :
    ∀ t s, extLow x x 0 0 false t t s = Best.mk 0 0 (s + t) := by
  intro t
  induction t with
  | zero =>
    intro s
    rw [extLow]
    rw [if_neg (by omega)]
    rw [Nat.add_zero]
  | succ t ih =>
    intro s
    rw [extLow]
    rw [if_pos ⟨by omega, by omega, rfl, rfl⟩]
    rw [show t + 1 - 1 = t by omega]
    rw [ih (s + 1)]
    congr 1
    omega

/-- Forward extension from the origin on `(x, x)` runs to the full length. -/
lemma extHigh_refl (x : List Char) :
    ∀ k s, s + k = x.length →
      extHigh x x x.length x.length false 0 0 s = Best.mk 0 0 x.length := by
  intro k
  induction k with
  | zero =>
    intro s hs
    rw [extHigh]
    rw [if_neg (by omega)]
    rw [show s = x.length by omega]
  | succ k ih =>
    intro s hs
    rw [extHigh]
    rw [if_pos ⟨by omega, by omega, rfl, rfl⟩]
    exact ih (s + 1) (by omega)

/-- `find_longest_match` on `(x, x)` over the full range is the whole
string: whatever (diagonal) best the DP finds, the extension loops stretch
it to `(0, 0, len(x))`. -/
lemma flm_refl (x : List Char) :
    find_longest_match x x 0 x.length 0 x.length = Best.mk 0 0 x.length := by
  have hd := flmLoop_diag x
  have hb := flmLoop_bounds x x 0 x.length 0 x.length
  rw [flm_eq_e2]
  rw [← hd]
  rw [extLow_refl x (flmLoop x x 0 x.length 0 x.length).i
    (flmLoop x x 0 x.length 0 x.length).size]
  dsimp only
  exact extHigh_refl x
    (x.length - ((flmLoop x x 0 x.length 0 x.length).size
      + (flmLoop x x 0 x.length 0 x.length).i))
    _ (by omega)

/-- The matching blocks of `x` against itself: the whole string (when
non-empty) plus the sentinel. -/
lemma gmb_refl (x : List Char) (hn : x.length ≠ 0) :
    get_matching_blocks x x = [Best.mk 0 0 x.length, Best.mk x.length x.length 0] := by
  have h1 : gmbGo x x [(0, x.length, 0, x.length)] [] = [Best.mk 0 0 x.length] := by
    rw [gmbGo]
    simp only [flm_refl]
    rw [dif_neg hn]
    rw [if_neg (by omega), if_neg (by omega)]
    simp only [List.append_nil, List.nil_append]
    rw [gmbGo]
  unfold get_matching_blocks
  rw [h1]
  simp only [List.reverse_singleton]
  rw [show sortBlocks [Best.mk 0 0 x.length] = [Best.mk 0 0 x.length] from rfl]
  simp only [List.foldl_cons, List.foldl_nil]
  rw [show mergeFold (Best.mk 0 0 0, []) (Best.mk 0 0 x.length)
      = (Best.mk 0 0 x.length, []) by simp [mergeFold]]
  rw [if_pos (by simpa using hn)]
  simp

/-- `ratio(x, x) = 1`, for every string, including those in which `autojunk`
purges popular characters. -/
lemma ratio_refl (x : List Char) : ratio x x = 1 := by
  by_cases hn : x.length = 0
  · unfold ratio
    rw [if_pos (by omega)]
  · unfold ratio
    rw [gmb_refl x hn]
    rw [if_neg (by omega)]
    simp only [List.map_cons, List.map_nil, List.sum_cons, List.sum_nil]
    have hL : ((x.length : ℚ) + (x.length : ℚ)) ≠ 0 := by
      have : (0 : ℚ) < (x.length : ℚ) := by
        exact_mod_cast Nat.pos_of_ne_zero hn
      positivity
    rw [div_eq_one_iff_eq hL]
    push_cast
    ring

end Difflib

namespace Difflib

/-- C3: comparing any string with itself yields exactly 100.00% similarity
and an empty differences list.  This holds for every `X` — including strings
of 200+ characters whose popular characters `autojunk` purges from `b2j`,
where the DP phase may find nothing but the extension loops still recover
the full-string match. -/
theorem c3_compare_reflexive (X : String) :
    compare_documents_with_libraries X X
      = { similarity_percentage := 100, differences := [] } := by
  unfold compare_documents_with_libraries
  rw [ratio_refl]
  dsimp only
  have h100 : round2 ((1 : ℚ) * 100) = 100 := by
    norm_num [round2, roundHalfEven]
  rw [h100]
  have hdiff : (List.range (max (pySplitlines X).length (pySplitlines X).length)).filterMap
      (fun i =>
        if (pySplitlines X).getD i "" ≠ (pySplitlines X).getD i "" then
          some (Difference.mk (i + 1) ((pySplitlines X).getD i "")
            ((pySplitlines X).getD i ""))
        else none) = [] := by
    apply List.filterMap_eq_nil_iff.mpr
    intro a _
    rw [if_neg (by simp)]
  rw [hdiff]

end Difflib
